import Mathlib

/-!
Verification development for the `xdumps` structured-value renderer
(`mstair.common.xdumps`): a shallow embedding of the value model
(`model.py`), the customizer registry and chain (`customizer_registry.py`),
the token-stream traversal (`token_stream.py`) and the formatter/view
(`view.py`), together with theorems settling the specification claims.

Modelling conventions:
* Python values handled by the renderer are embedded as the inductive
  `XD.Value`.  The embedded universe covers the shapes the claims are
  about: `None`, `bool`, `int`, `str`, `XRawString` (the repository's
  raw-string marker type, a `str` subclass), `list`, `tuple`, `set`
  and `dict`.  `float`, `bytes`, exceptions, dataclasses and
  `pathlib.Path` values are outside the embedded universe; the built-in
  customizers that only fire on those types are embedded as customizers
  that return `None` on every embedded value, exactly as the originals
  do on this universe.
* A `dict` is embedded as its ordered association list, a `set` as its
  iteration-ordered element list.
* Customizer functions are embedded as `XD.Customizer`: a numeric `id`
  standing for Python object identity (used by `register`'s membership
  test) plus a behaviour `run` that may return a customization, a raw
  string, `None`, or raise (`CustResult.raises`).  Logging and
  `warnings.warn` are I/O; warnings are modelled as a count returned by
  the mapping-pair emitter, log output is not modelled.
* The traversal (`TokenStream`) recurses through customizer-supplied
  override values, so it has no structural termination measure (the
  source has no recursion ceiling); it is embedded with an explicit
  `fuel` parameter modelling the Python call stack, returning `none`
  when the fuel is exhausted.  Python exceptions raised by the traversal
  or formatter (`TypeError` for an unrecognized container, unresolved
  delimiters) are also embedded as `none`.
-/

namespace XD

/-- Punctuation for formatting structured containers (`model.Delimiters`). -/
structure Delimiters where
  open_ : String
  close_ : String
  itemsep : String := ","
  kvsep : String := ":"
deriving Repr, DecidableEq

/-- The embedded universe of Python values reaching the renderer. -/
inductive Value where
  | null : Value
  | bool (b : Bool) : Value
  | int (i : Int) : Value
  | str (s : String) : Value
  | raw (s : String) : Value
  | list (items : List Value) : Value
  | tuple (items : List Value) : Value
  | set (items : List Value) : Value
  | dict (pairs : List (Value × Value)) : Value
deriving Repr

/-- Python truthiness (`bool(v)`) on the embedded universe. -/
def pyTruthy : Value → Bool
  | .null => false
  | .bool b => b
  | .int i => i != 0
  | .str s => s ≠ ""
  | .raw s => s ≠ ""
  | .list items => !items.isEmpty
  | .tuple items => !items.isEmpty
  | .set items => !items.isEmpty
  | .dict pairs => !pairs.isEmpty

/-- Python equality (`==`) as used for dict keys and set membership on the
embedded universe.  `XRawString` is a `str` subclass, so a raw string and a
plain string with the same text are equal; `bool` is an `int` subclass, so
`True == 1` and `False == 0`; containers compare elementwise (for `set`
this elementwise comparison is an approximation of Python's order-free set
equality, unused by any claim). -/
def pyEq : Value → Value → Bool
  | .null, .null => true
  | .bool b, .bool c => b = c
  | .bool b, .int i => (if b then (1 : Int) else 0) = i
  | .int i, .bool b => i = (if b then (1 : Int) else 0)
  | .int i, .int j => i = j
  | .str s, .str t => s = t
  | .str s, .raw t => s = t
  | .raw s, .str t => s = t
  | .raw s, .raw t => s = t
  | .list a, .list b => pyEqList a b
  | .tuple a, .tuple b => pyEqList a b
  | .set a, .set b => pyEqList a b
  | .dict a, .dict b => pyEqPairs a b
  | _, _ => false
where
  pyEqList : List Value → List Value → Bool
    | [], [] => true
    | x :: xs, y :: ys => pyEq x y && pyEqList xs ys
    | _, _ => false
  pyEqPairs : List (Value × Value) → List (Value × Value) → Bool
    | [], [] => true
    | (k, v) :: xs, (k2, v2) :: ys => pyEq k k2 && pyEq v v2 && pyEqPairs xs ys
    | _, _ => false

/-- `d[k]` lookup on the embedded association list (first `==` match). -/
def pyDictGet (pairs : List (Value × Value)) (k : Value) : Value :=
  match pairs with
  | [] => .null
  | (k2, v) :: rest => if pyEq k2 k then v else pyDictGet rest k

/-- `d[k] = v` on the embedded association list: when an `==`-equal key is
present, its value is replaced and the original key object is kept
(CPython dict semantics); otherwise the pair is appended. -/
def pyDictSetItem (pairs : List (Value × Value)) (k v : Value) : List (Value × Value) :=
  match pairs with
  | [] => [(k, v)]
  | (k2, v2) :: rest =>
    if pyEq k2 k then (k2, v) :: rest
    else (k2, v2) :: pyDictSetItem rest k v

/-- `set.add` on the iteration-ordered element list: a no-op when an
`==`-equal element is present, otherwise the element is appended. -/
def pySetAdd (items : List Value) (x : Value) : List Value :=
  if items.any (fun y => pyEq y x) then items else items ++ [x]

/-- The single-quote character, used by the embedded `repr`. -/
def sq : String := String.singleton (Char.ofNat 39)

mutual

/-- Python `repr` on the embedded universe (reachable from `str()` of a
container).  String escaping inside `repr` is not modelled (no claim
evaluates `repr` on strings containing quotes). -/
def pyRepr : Value → String
  | .null => "None"
  | .bool b => if b then "True" else "False"
  | .int i => toString i
  | .str s => sq ++ s ++ sq
  | .raw s => "XRawString(" ++ sq ++ s ++ sq ++ ")"
  | .list items => "[" ++ pyReprJoin items ++ "]"
  | .tuple items =>
    "(" ++ pyReprJoin items ++ (if items.length = 1 then ",)" else ")")
  | .set items =>
    if items.isEmpty then "set()" else "\x7b" ++ pyReprJoin items ++ "\x7d"
  | .dict pairs => "\x7b" ++ pyReprJoinPairs pairs ++ "\x7d"

def pyReprJoin : List Value → String
  | [] => ""
  | x :: rest => pyRepr x ++ (if rest.isEmpty then "" else ", ") ++ pyReprJoin rest

def pyReprJoinPairs : List (Value × Value) → String
  | [] => ""
  | (k, v) :: rest =>
    pyRepr k ++ ": " ++ pyRepr v ++ (if rest.isEmpty then "" else ", ") ++ pyReprJoinPairs rest

end

/-- Python `str()` on the embedded universe. -/
def pyStr : Value → String
  | .null => "None"
  | .bool b => if b then "True" else "False"
  | .int i => toString i
  | .str s => s
  | .raw s => s
  | v => pyRepr v

/-- One hexadecimal digit, lowercase, as produced by Python's JSON
encoder in `\uXXXX` escapes. -/
def hexDigit (n : Nat) : Char :=
  if n < 10 then Char.ofNat (48 + n) else Char.ofNat (97 + (n - 10))

/-- Four-digit lowercase hexadecimal rendering of `n % 65536`. -/
def hex4 (n : Nat) : String :=
  String.mk [hexDigit (n / 4096 % 16), hexDigit (n / 256 % 16),
             hexDigit (n / 16 % 16), hexDigit (n % 16)]

/-- Escape one character the way `json.dumps` (with the default
`ensure_ascii=True`) escapes characters inside a string literal,
including surrogate pairs for astral code points. -/
def jsonEscapeChar (c : Char) : String :=
  if c = Char.ofNat 34 then "\\" ++ String.singleton (Char.ofNat 34)
  else if c = '\\' then "\\\\"
  else if c = '\n' then "\\n"
  else if c = '\r' then "\\r"
  else if c = '\t' then "\\t"
  else if c = Char.ofNat 8 then "\\b"
  else if c = Char.ofNat 12 then "\\f"
  else if c.toNat < 32 ∨ c.toNat > 126 then
    if c.toNat < 65536 then "\\u" ++ hex4 c.toNat
    else
      let n := c.toNat - 65536
      "\\u" ++ hex4 (55296 + n / 1024) ++ "\\u" ++ hex4 (56320 + n % 1024)
  else String.singleton c

/-- `json.dumps` applied to a Python `str`: the double-quoted, escaped
string literal.  Both the renderer's `stringify_atom` and the standard
library encoder produce string atoms through this one function. -/
def jsonEscape (s : String) : String :=
  String.singleton (Char.ofNat 34)
    ++ String.join (s.toList.map jsonEscapeChar)
    ++ String.singleton (Char.ofNat 34)

/-- `model.XTokenCustomization`.  The `value` field is `none` for the
`MISSING` sentinel, `some v` for an override value; `override` in the
source is `value is not MISSING`, here `value.isSome`.  Python's
`source_type` holds a type object; the embedding records the type name. -/
structure XTokenCustomization where
  delimiters : Option Delimiters := none
  suppress : Bool := false
  value : Option Value := none
  raw_string : Bool := false
  raw_key_strings : Bool := false
  source_type : Option String := none
  continue_chain : Bool := true
deriving Repr

/-- `XTokenCustomization.override`: whether an override value is present. -/
def XTokenCustomization.override (c : XTokenCustomization) : Bool :=
  c.value.isSome

/-- The outcome of invoking one customizer on `(value, depth)`:
it may raise, return `None`, return a raw `str`, or return an
`XTokenCustomization`. -/
inductive CustResult where
  | raises : CustResult
  | retNone : CustResult
  | retStr (s : String) : CustResult
  | retCust (c : XTokenCustomization) : CustResult

/-- A registered customizer function: `id` models Python function-object
identity (`register` deduplicates by it), `run` is the behaviour. -/
structure Customizer where
  id : Nat
  run : Value → Nat → CustResult

/-- The customization built for a raw-`str` customizer result
(`CustomizerRegistry.customize`, the `isinstance(result, str)` branch). -/
def rawStringCustomization (s : String) : XTokenCustomization :=
  { value := some (.str s), raw_string := true, continue_chain := false }

/-- The in-place merge of a later customization `result` into the
accumulator `merged` (`CustomizerRegistry.customize`): non-default
fields of `result` overwrite, the boolean raw flags latch, and
`continue_chain` can only be switched off. -/
def mergeCustomization (merged result : XTokenCustomization) : XTokenCustomization :=
  { merged with
    delimiters := if result.delimiters.isSome then result.delimiters else merged.delimiters,
    value := if result.override then result.value else merged.value,
    raw_key_strings := merged.raw_key_strings || result.raw_key_strings,
    raw_string := merged.raw_string || result.raw_string,
    source_type := if result.source_type.isSome then result.source_type else merged.source_type,
    continue_chain := merged.continue_chain && result.continue_chain }

/-- The loop of `CustomizerRegistry.customize` over the registry list.
Returns the updated registry (a raising customizer is popped at the
point of failure and iteration continues from the same position), the
merged result, and the ids of the customizers that were invoked, in
invocation order.  A raw-string result or a result with
`continue_chain=False` stops the chain immediately, leaving the rest of
the registry untouched. -/
def customizeGo (v : Value) (d : Nat) :
    List Customizer → Option XTokenCustomization →
    List Customizer × Option XTokenCustomization × List Nat
  | [], merged => ([], merged, [])
  | c :: rest, merged =>
    match c.run v d with
    | .raises =>
      let out := customizeGo v d rest merged
      (out.1, out.2.1, c.id :: out.2.2)
    | .retNone =>
      let out := customizeGo v d rest merged
      (c :: out.1, out.2.1, c.id :: out.2.2)
    | .retStr s => (c :: rest, some (rawStringCustomization s), [c.id])
    | .retCust x =>
      let m := match merged with
        | none => x
        | some m0 => mergeCustomization m0 x
      if x.continue_chain then
        let out := customizeGo v d rest (some m)
        (c :: out.1, out.2.1, c.id :: out.2.2)
      else (c :: rest, some m, [c.id])

/-- `CustomizerRegistry.customize(value, depth)`. -/
def customize (reg : List Customizer) (v : Value) (d : Nat) :
    List Customizer × Option XTokenCustomization × List Nat :=
  customizeGo v d reg none

/-- `Delimiters.for_type`, restricted to the embedded universe.
`str`, `int`, `bool` and `NoneType` are atomic; `XRawString` is not in
the atomic-type tuple and, being a `str` subclass, is a
`collections.abc.Sequence`, so it resolves to list brackets.  The
separator defaults mirror `json`: explicit `separators` win, otherwise
compact mode uses `(", ", ": ")` and any indented mode `(",", ": ")`. -/
def delimitersForValue (v : Value) (indent : Option Int)
    (separators : Option (String × String)) : Option Delimiters :=
  match v with
  | .null | .bool _ | .int _ | .str _ => none
  | _ =>
    let seps := match separators with
      | some s => s
      | none => match indent with
        | none => (", ", ": ")
        | some _ => (",", ": ")
    match v with
    | .dict _ => some ⟨"\x7b", "\x7d", seps.1, seps.2⟩
    | .tuple _ => some ⟨"(", ")", seps.1, seps.2⟩
    | .list _ => some ⟨"[", "]", seps.1, seps.2⟩
    | .raw _ => some ⟨"[", "]", seps.1, seps.2⟩
    | .set _ => some ⟨"\x7b", "\x7d", seps.1, seps.2⟩
    | _ => none

/-- Whether a value is one of the container shapes the width limiter
truncates (`Mapping`, `Sequence`, `Set`; `str`/`bytes` were already
excluded before this test in the source). -/
def isWidthContainer : Value → Bool
  | .list _ | .tuple _ | .set _ | .dict _ => true
  | _ => false

/-- The body of `CUSTOMIZER.max_container_width`'s inner customizer for a
configured `max_width ≥ 0` (the factory returns `None`, i.e. no
customizer at all, for `max_width < 0`). -/
def maxContainerWidthRun (w : Int) (v : Value) (_depth : Nat) : CustResult :=
  match v with
  | .str _ | .raw _ => .retNone
  | _ =>
    if w = 0 ∧ isWidthContainer v then
      .retCust { value := some (.str "..."), raw_string := true,
                 delimiters := delimitersForValue v none none }
    else
      match v with
      | .dict pairs =>
        if (pairs.length : Int) > w then
          let kept := (pairs.take w.toNat).map (fun kv => (kv.1, pyDictGet pairs kv.1))
          .retCust { value := some (.dict (pyDictSetItem kept (.raw "...") (.raw "..."))) }
        else .retNone
      | .list items =>
        if (items.length : Int) > w then
          .retCust { value := some (.list (items.take w.toNat ++ [.raw "..."])) }
        else .retNone
      | .tuple items =>
        if (items.length : Int) > w then
          .retCust { value := some (.tuple (items.take w.toNat ++ [.raw "..."])) }
        else .retNone
      | .set items =>
        if (items.length : Int) > w then
          .retCust { value := some (.set (pySetAdd (items.take w.toNat) (.raw "..."))) }
        else .retNone
      | _ => .retNone

/-- The width-limiter customizer as a registered function. -/
def widthCustomizer (w : Int) : Customizer := ⟨5, maxContainerWidthRun w⟩

/-- `CUSTOMIZER.max_container_width(max_width=w)`: disabled (no
customizer) when `w < 0`. -/
def maxContainerWidth (w : Int) : Option Customizer :=
  if w < 0 then none else some (widthCustomizer w)

/-- The body of `CUSTOMIZER.max_container_depth`'s inner customizer for a
configured `max_depth ≥ 0`: any value customized at a depth exceeding
`max_depth` is overridden with the raw ellipsis string (no delimiters
are attached). -/
def maxContainerDepthRun (d : Int) (_v : Value) (depth : Nat) : CustResult :=
  if (depth : Int) > d then
    .retCust { value := some (.str "..."), raw_string := true }
  else .retNone

/-- The depth-limiter customizer as a registered function. -/
def depthCustomizer (d : Int) : Customizer := ⟨6, maxContainerDepthRun d⟩

/-- `CUSTOMIZER.max_container_depth(max_depth=d)`: disabled when `d < 0`. -/
def maxContainerDepth (d : Int) : Option Customizer :=
  if d < 0 then none else some (depthCustomizer d)

/-- `CUSTOMIZER.wrap_derived_class_instances()` on the embedded universe:
the only non-`builtins` type among embedded values is `XRawString`, for
which the type's format arguments resolve and the default open/close
templates produce `XRawString(` and `)`; every other embedded value has
a `builtins` type, for which `_value_to_dict` returns `None`. -/
def wrapDerivedC : Customizer :=
  ⟨7, fun v _ =>
    match v with
    | .raw s => .retCust { delimiters := some ⟨"XRawString(", ")", ",", ":"⟩,
                           value := some (.raw s) }
    | _ => .retNone⟩

/-- `CUSTOMIZER.libpath_path_as_posix()`: fires only on `pathlib.Path`
values, of which the embedded universe has none. -/
def pathPosixC : Customizer := ⟨4, fun _ _ => .retNone⟩

/-- Built-in `CustomizerRegistry._customize_raw_string`: an `XRawString`
value is customized to its plain-`str` text with `raw_string=True`
(`continue_chain` stays at its default `True`). -/
def rawStringC : Customizer :=
  ⟨0, fun v _ =>
    match v with
    | .raw s => .retCust { value := some (.str s), raw_string := true }
    | _ => .retNone⟩

/-- Built-in `CustomizerRegistry._customize_exception`: fires only on
`Exception` instances, of which the embedded universe has none. -/
def exceptionC : Customizer := ⟨1, fun _ _ => .retNone⟩

/-- Built-in `CustomizerRegistry._customize_dataclass`: fires only on
dataclass instances, of which the embedded universe has none. -/
def dataclassC : Customizer := ⟨2, fun _ _ => .retNone⟩

/-- Built-in `CustomizerRegistry._customize_path`: fires only on
`pathlib.Path` values, of which the embedded universe has none. -/
def pathC : Customizer := ⟨3, fun _ _ => .retNone⟩

/-- `CustomizerRegistry.register(func)` at the default index 0: an
already-registered function (same object identity, modelled by `id`) is
first removed, then the function is inserted at the head. -/
def register (f : Customizer) (l : List Customizer) : List Customizer :=
  f :: l.eraseP (fun g => g.id == f.id)

/-- The registry contents right after `CustomizerRegistry.reset()`:
`_customize_raw_string`, `_customize_exception`, `_customize_dataclass`,
`_customize_path` are each registered at index 0 in that order, so the
resulting invocation order is path, dataclass, exception, raw-string. -/
def builtinRegistry : List Customizer :=
  register pathC (register dataclassC (register exceptionC (register rawStringC [])))

/-- `TokenStream.__init__`: a fresh default registry, then each supplied
customizer registered (at index 0) in list order. -/
def tokenStreamRegistry (extras : List Customizer) : List Customizer :=
  extras.foldl (fun acc f => register f acc) builtinRegistry

/-- The registry a top-level `xdumps(value, max_width=w, max_depth=d,
customizers=user)` call builds: the user customizers followed by the
path-as-posix customizer, the width limiter (when enabled), the depth
limiter (when enabled) and the derived-class wrapper, all handed to
`TokenStream`. -/
def xdumpsRegistry (user : List Customizer) (w d : Int) : List Customizer :=
  tokenStreamRegistry
    (user ++ ([some pathPosixC, maxContainerWidth w, maxContainerDepth d,
               some wrapDerivedC].filterMap id))

/-- Token kinds (`model.Kind`). -/
inductive Kind where
  | OPEN | VALUE | KV_SEP | ITEM_SEP | CLOSE
deriving Repr, DecidableEq

/-- One node of the flattened emission stream (`model.Token`).  `value_`
is `none` for the `MISSING` default; `parent` is the non-owning
back-reference used for delimiter and indentation lookups. -/
inductive Token where
  | mk (kind : Kind) (value_ : Option Value) (is_kvv : Bool)
       (parent : Option Token) (customization : Option XTokenCustomization)

/-- The token's kind. -/
def Token.kind : Token → Kind
  | .mk k _ _ _ _ => k

/-- The token's stored (pre-override) value. -/
def Token.value_ : Token → Option Value
  | .mk _ v _ _ _ => v

/-- Whether the token is the value half of a mapping pair. -/
def Token.is_kvv : Token → Bool
  | .mk _ _ b _ _ => b

/-- The token's parent back-reference. -/
def Token.parent : Token → Option Token
  | .mk _ _ _ p _ => p

/-- The token's attached customization, if any. -/
def Token.customization : Token → Option XTokenCustomization
  | .mk _ _ _ _ c => c

/-- `Token.depth`: the number of parents above this token. -/
def Token.depth : Token → Nat
  | .mk _ _ _ none _ => 0
  | .mk _ _ _ (some p) _ => p.depth + 1

/-- `Token.value`: the customization's override value when present,
otherwise the stored value (`none` stands for `MISSING`). -/
def Token.value (t : Token) : Option Value :=
  match t.customization with
  | some c => if c.override then c.value else t.value_
  | none => t.value_

/-- `Token.is_mapping`. -/
def Token.is_mapping (t : Token) : Bool :=
  match t.value with
  | some (.dict _) => true
  | _ => false

/-- `Token.is_sequence`: a `Sequence` that is not `str`/`bytes`
(this excludes plain and raw strings). -/
def Token.is_sequence (t : Token) : Bool :=
  match t.value with
  | some (.list _) | some (.tuple _) => true
  | _ => false

/-- `Token.is_set`. -/
def Token.is_set (t : Token) : Bool :=
  match t.value with
  | some (.set _) => true
  | _ => false

/-- `Token.is_container`. -/
def Token.is_container (t : Token) : Bool :=
  t.is_mapping || t.is_sequence || t.is_set

/-- `Token.delimiters(indent, separators)`: a VALUE token resolves from
its customization's delimiters, else from `Delimiters.for_object` of its
value, climbing to the parent when unresolved; a structural token
resolves from its parent.  `none` models the source's
`AssertionError` for unresolvable delimiters. -/
def Token.delims (indent : Option Int) (separators : Option (String × String)) :
    Token → Option Delimiters
  | .mk k v _ p c =>
    match k with
    | .VALUE =>
      let t : Token := .mk k v false p c
      let cand := match c with
        | some cz => match cz.delimiters with
          | some dl => some dl
          | none => t.value.bind (fun w => delimitersForValue w indent separators)
        | none => t.value.bind (fun w => delimitersForValue w indent separators)
      match cand with
      | some dl => some dl
      | none =>
        match p with
        | some pt => Token.delims indent separators pt
        | none => none
    | _ =>
      match p with
      | some pt => Token.delims indent separators pt
      | none => none

/-- The traversal state: the mutable private customizer registry of the
`TokenStream` paired with the emitted tokens. -/
abbrev EmitOut := List Token × List Customizer

/-- The `yield OPEN / yield from children / yield CLOSE` pattern the
traversal uses at its three container sites (`__iter__`,
`_emit_value_or_container`, `emit_tokens_for_mapping_pair`), applied to
the result of the container-items emission. -/
def wrapChildren (tok : Token) (openKvv : Bool) : Option EmitOut → Option EmitOut
  | none => none
  | some (ts, reg2) =>
    some (Token.mk .OPEN none openKvv (some tok) none
            :: ts ++ [Token.mk .CLOSE none false (some tok) none], reg2)

/-- Destructor for a successful `wrapChildren`. -/
theorem wrapChildren_some (tok : Token) (kv : Bool) (inner : Option EmitOut) (res : EmitOut)
    (h : wrapChildren tok kv inner = some res) :
    ∃ ts, inner = some (ts, res.2) ∧
      res.1 = Token.mk .OPEN none kv (some tok) none
                :: ts ++ [Token.mk .CLOSE none false (some tok) none] := by
  cases inner with
  | none => exact Option.noConfusion h
  | some pr =>
    cases pr with
    | mk ts reg2 =>
      cases h
      exact ⟨ts, rfl, rfl⟩

mutual

/-- `TokenStream._emit_value_or_container`: customize the value at the
parent's depth plus one, attach the result to a fresh VALUE token, then
either emit the token alone or, when the (override-aware) value is
container-shaped, emit OPEN, the container's items and CLOSE. -/
def emitValueOrContainer : Nat → List Customizer → Value → Token → Option EmitOut
  | 0, _, _, _ => none
  | fuel + 1, reg, v, parent =>
    let out := customize reg v (parent.depth + 1)
    let token : Token := .mk .VALUE (some v) false (some parent) out.2.1
    if token.is_container then
      wrapChildren token false (emitContainerItems fuel out.1 token)
    else some ([token], out.1)

/-- `TokenStream.emit_container_items`: dispatch on the container shape
of the token's (override-aware) value; an unrecognized shape is the
source's `TypeError`, embedded as `none`. -/
def emitContainerItems : Nat → List Customizer → Token → Option EmitOut
  | 0, _, _ => none
  | fuel + 1, reg, ct =>
    if ct.is_mapping then
      match ct.value with
      | some (.dict pairs) => emitMappingItems fuel reg ct pairs false
      | _ => none
    else if ct.is_sequence || ct.is_set then
      match ct.value with
      | some (.list items) => emitSequenceItems fuel reg ct items false
      | some (.tuple items) => emitSequenceItems fuel reg ct items false
      | some (.set items) => emitSequenceItems fuel reg ct items false
      | _ => none
    else none

/-- `TokenStream._emit_sequence_items`: peek each item, decide
suppression first, and emit an ITEM_SEP only before an item that
survives when a previous item already survived. -/
def emitSequenceItems : Nat → List Customizer → Token → List Value → Bool → Option EmitOut
  | _, reg, _, [], _ => some ([], reg)
  | 0, _, _, _ :: _, _ => none
  | fuel + 1, reg, ct, v :: rest, emittedAny =>
    let s := customize reg v (ct.depth + 1)
    if (s.2.1.map (·.suppress)).getD false then
      emitSequenceItems fuel s.1 ct rest emittedAny
    else
      match emitValueOrContainer fuel s.1 v ct with
      | none => none
      | some (vts, reg2) =>
        match emitSequenceItems fuel reg2 ct rest true with
        | none => none
        | some (ts, reg3) =>
          some ((if emittedAny then [Token.mk .ITEM_SEP none false (some ct) none] else [])
                  ++ vts ++ ts, reg3)

/-- `TokenStream._emit_mapping_items`: like the sequence loop, but the
suppression probe customizes the `(key, value)` pair tuple. -/
def emitMappingItems : Nat → List Customizer → Token → List (Value × Value) → Bool → Option EmitOut
  | _, reg, _, [], _ => some ([], reg)
  | 0, _, _, _ :: _, _ => none
  | fuel + 1, reg, ct, (k, v) :: rest, emittedAny =>
    let s := customize reg (.tuple [k, v]) (ct.depth + 1)
    if (s.2.1.map (·.suppress)).getD false then
      emitMappingItems fuel s.1 ct rest emittedAny
    else
      match emitMappingPair fuel s.1 ct k v with
      | none => none
      | some (pts, reg2, _) =>
        match emitMappingItems fuel reg2 ct rest true with
        | none => none
        | some (ts, reg3) =>
          some ((if emittedAny then [Token.mk .ITEM_SEP none false (some ct) none] else [])
                  ++ pts ++ ts, reg3)

/-- `TokenStream.emit_tokens_for_mapping_pair`: key token(s), a KV_SEP,
then value token(s) flagged `is_kvv`.  A suppressing key or value
customization triggers `warnings.warn` (counted in the third component)
but emission proceeds regardless. -/
def emitMappingPair : Nat → List Customizer → Token → Value → Value →
    Option (List Token × List Customizer × Nat)
  | 0, _, _, _, _ => none
  | fuel + 1, reg, ct, k, v =>
    let ks := customize reg k (ct.depth + 1)
    let keyToken : Token := .mk .VALUE (some k) false (some ct) ks.2.1
    let warnK : Nat := if (ks.2.1.map (·.suppress)).getD false then 1 else 0
    (if keyToken.is_container then
        wrapChildren keyToken false (emitContainerItems fuel ks.1 keyToken)
      else some ([keyToken], ks.1)).bind fun kp =>
    let vs := customize kp.2 v (ct.depth + 1)
    let warnV : Nat := if (vs.2.1.map (·.suppress)).getD false then 1 else 0
    let valueToken : Token := .mk .VALUE (some v) true (some ct) vs.2.1
    (if valueToken.is_container then
        wrapChildren valueToken true (emitContainerItems fuel vs.1 valueToken)
      else some ([valueToken], vs.1)).bind fun vp =>
    some (kp.1 ++ Token.mk .KV_SEP none false (some ct) none :: vp.1, vp.2, warnK + warnV)

end

/-- `TokenStream.__iter__` on the root value: customize at depth 0;
a suppressing customization emits nothing, a raw-string customization
emits the root token alone; otherwise, when the (override-aware)
effective value `isinstance`-matches `Mapping`, `Sequence` or `Set` —
a test that, unlike `Token.is_container`, is also satisfied by `str`
values, since `str` is a registered `Sequence` — the container path is
taken, else the root token is emitted alone. -/
def streamTokens (fuel : Nat) (reg : List Customizer) (v : Value) : Option EmitOut :=
  let out := customize reg v 0
  let cust := out.2.1
  let root : Token := .mk .VALUE (some v) false none cust
  if (cust.map (·.suppress)).getD false then some ([], out.1)
  else if (cust.map (·.raw_string)).getD false then some ([root], out.1)
  else
    let container := match root.value with
      | some (.dict _) | some (.list _) | some (.tuple _) | some (.set _)
      | some (.str _) | some (.raw _) => true
      | _ => false
    if container then
      wrapChildren root false (emitContainerItems fuel out.1 root)
    else some ([root], out.1)

/-- The formatter configuration (`view.TokenFormatter`).  The `indent`
sentinel resolution of `__post_init__` (the CALCULATE default) is
outside the embedding: callers pass an explicit `int` or `None`. -/
structure TokenFormatter where
  indent : Option Int := none
  separators : Option (String × String) := none
  literals : String × String × String := ("None", "True", "False")
  escape_unicode : Bool := true

/-- `TokenFormatter.get_indentation`: positive-indent, non-`is_kvv`
tokens are shifted by depth × indent (VALUE) or parent-depth × indent
(OPEN/CLOSE, zero at the root). -/
def getIndentation (cfg : TokenFormatter) (t : Token) : String :=
  match cfg.indent with
  | some n =>
    if n > 0 ∧ t.is_kvv = false then
      let rshift : Nat :=
        match t.kind with
        | .VALUE => t.depth * n.toNat
        | .OPEN | .CLOSE =>
          match t.parent with
          | some p => p.depth * n.toNat
          | none => 0
        | _ => 0
      String.mk (List.replicate rshift ' ')
    else ""
  | none => ""

/-- `type(x).__name__` on the embedded universe, for the unknown-atom
fallback renderer. -/
def typeName : Value → String
  | .null => "NoneType"
  | .bool _ => "bool"
  | .int _ => "int"
  | .str _ => "str"
  | .raw _ => "XRawString"
  | .list _ => "list"
  | .tuple _ => "tuple"
  | .set _ => "set"
  | .dict _ => "dict"

/-- `TokenFormatter.stringify_atom`: `None`/`True`/`False` map to the
configured literal spellings; values whose exact type is `str`, `int`
or `float` go through `json.dumps`; other values go through the
`_ATOMIC_RENDERERS` mro lookup (for `XRawString` that finds the `str`
renderer, so the text is JSON-quoted; containers fall back to
`_atom_render_unknown`) and the rendered string is then JSON-quoted.
A `none` atom is the `MISSING` sentinel, stringified by the `Sentinel`
branch. -/
def stringifyAtom (cfg : TokenFormatter) : Option Value → String
  | none => "MISSING"
  | some v =>
    match v with
    | .null => cfg.literals.1
    | .bool true => cfg.literals.2.1
    | .bool false => cfg.literals.2.2
    | .int i => toString i
    | .str s => jsonEscape s
    | .raw s => jsonEscape s
    | _ => jsonEscape (typeName v ++ "<" ++ pyStr v ++ ">")

/-- Truthiness of `token.parent and token.parent.value` (the `MISSING`
sentinel is falsy). -/
def parentTruthy (t : Token) : Bool :=
  match t.parent with
  | some p =>
    match p.value with
    | some v => pyTruthy v
    | none => false
  | none => false

/-- `TokenFormatter.token_format` for one token; `none` models the
source's assertion failure on unresolvable delimiters. -/
def formatToken (cfg : TokenFormatter) (t : Token) : Option String :=
  match t.kind with
  | .OPEN =>
    (Token.delims cfg.indent cfg.separators t).map (fun d =>
      getIndentation cfg t ++ d.open_
        ++ (if cfg.indent.isSome ∧ parentTruthy t then "\n" else ""))
  | .CLOSE =>
    (Token.delims cfg.indent cfg.separators t).map (fun d =>
      (if cfg.indent.isSome ∧ parentTruthy t then "\n" ++ getIndentation cfg t else "")
        ++ d.close_)
  | .ITEM_SEP =>
    (Token.delims cfg.indent cfg.separators t).map (fun d =>
      if cfg.indent = some 0 then d.itemsep ++ " "
      else if cfg.indent.isSome then d.itemsep ++ "\n"
      else d.itemsep)
  | .KV_SEP =>
    (Token.delims cfg.indent cfg.separators t).map (fun d => d.kvsep)
  | .VALUE =>
    let chunk :=
      if (t.customization.map (·.raw_string)).getD false then
        match t.value with
        | some v => pyStr v
        | none => "MISSING"
      else stringifyAtom cfg t.value
    some (if t.is_container then chunk else getIndentation cfg t ++ chunk)

/-- Concatenate the formatted chunks of a token list (the join loop of
`xdumps`); `none` as soon as one token fails to format. -/
def renderTokens (cfg : TokenFormatter) : List Token → Option String
  | [] => some ""
  | t :: ts =>
    match formatToken cfg t, renderTokens cfg ts with
    | some c, some r => some (c ++ r)
    | _, _ => none

/-- The full `xdumps(value, ...)` pipeline with an explicit registry,
bypass flag and fuel: string bypass first, then tokenize and format.
The `rshift` left-pad post-pass is not modelled (all claims use the
default `rshift=0`, where it is the identity). -/
def xdumpsModel (fuel : Nat) (cfg : TokenFormatter) (user : List Customizer)
    (w d : Int) (bypass : Bool) (v : Value) : Option String :=
  match v with
  | .str s => if bypass then some s else
      (streamTokens fuel (xdumpsRegistry user w d) v).bind (fun out => renderTokens cfg out.1)
  | .raw s => if bypass then some s else
      (streamTokens fuel (xdumpsRegistry user w d) v).bind (fun out => renderTokens cfg out.1)
  | _ => (streamTokens fuel (xdumpsRegistry user w d) v).bind (fun out => renderTokens cfg out.1)

/-- The compact configuration every exact-output claim uses: `indent=None`,
default separators, JSON literal spellings — the configuration of the
repository's own `json.dumps` comparison test. -/
def compactCfg : TokenFormatter :=
  { indent := none, separators := none, literals := ("null", "true", "false"),
    escape_unicode := false }

/-- `json.dumps` key coercion for non-string mapping keys (the encoder
stringifies `int`, `bool` and `None` keys; other key types raise
`TypeError` under the default `skipkeys=False`). -/
def jsonKeyString : Value → Option String
  | .str s => some s
  | .raw s => some s
  | .int i => some (toString i)
  | .bool b => some (if b then "true" else "false")
  | .null => some "null"
  | _ => none

mutual

/-- Modelled from the spec: the standard library JSON encoder's compact
output (`json.dumps` with `indent=None` and its default compact
separators `(", ", ": ")`), the comparator named by the
refinement claim.  Tuples are encoded as arrays; sets are not JSON
serializable (`TypeError`, embedded as `none`); `XRawString`, being a
`str` subclass, is encoded as a string. -/
def jsonDumps : Value → Option String
  | .null => some "null"
  | .bool b => some (if b then "true" else "false")
  | .int i => some (toString i)
  | .str s => some (jsonEscape s)
  | .raw s => some (jsonEscape s)
  | .list items => (jsonDumpsList items).map (fun body => "[" ++ body ++ "]")
  | .tuple items => (jsonDumpsList items).map (fun body => "[" ++ body ++ "]")
  | .set _ => none
  | .dict pairs => (jsonDumpsPairs pairs).map (fun body => "\x7b" ++ body ++ "\x7d")

def jsonDumpsList : List Value → Option String
  | [] => some ""
  | v :: rest =>
    match jsonDumps v, jsonDumpsList rest with
    | some a, some b => some (a ++ (if rest.isEmpty then "" else ", ") ++ b)
    | _, _ => none

def jsonDumpsPairs : List (Value × Value) → Option String
  | [] => some ""
  | (k, v) :: rest =>
    match jsonKeyString k, jsonDumps v, jsonDumpsPairs rest with
    | some ks, some vs, some b =>
      some (jsonEscape ks ++ ": " ++ vs ++ (if rest.isEmpty then "" else ", ") ++ b)
    | _, _, _ => none

end

/-! ### Supporting lemmas -/

/-- The registry built by `xdumps` with no user customizers and both
limiters disabled. -/
def pipelineRegistry0 : List Customizer :=
  [wrapDerivedC, pathPosixC, pathC, dataclassC, exceptionC, rawStringC]

theorem xdumpsRegistry_default : xdumpsRegistry [] (-1) (-1) = pipelineRegistry0 := rfl

/-- OPEN and CLOSE tokens whose parent sits at depth 0 are never
indented, whatever the configuration. -/
theorem getIndentation_structural_root (cfg : TokenFormatter) (k : Kind)
    (hk : k = Kind.OPEN ∨ k = Kind.CLOSE) (v : Option Value) (b : Bool)
    (c : Option XTokenCustomization) (p : Token) (hp : p.depth = 0) :
    getIndentation cfg (.mk k v b (some p) c) = "" := by
  rcases cfg with ⟨ind, seps, lits, esc⟩
  cases ind with
  | none => rfl
  | some n =>
    rcases hk with hk | hk <;> subst hk <;>
      simp [getIndentation, Token.is_kvv, Token.kind, Token.parent, hp]

/-- The root VALUE token of an uncustomized value. -/
def rootTok (v : Value) : Token := .mk .VALUE (some v) false none none

theorem getIndentation_open_root (cfg : TokenFormatter) (v : Value) :
    getIndentation cfg (.mk .OPEN none false (some (.mk .VALUE (some v) false none none)) none)
      = "" :=
  getIndentation_structural_root cfg _ (Or.inl rfl) _ _ _ _ rfl

theorem getIndentation_close_root (cfg : TokenFormatter) (v : Value) :
    getIndentation cfg (.mk .CLOSE none false (some (.mk .VALUE (some v) false none none)) none)
      = "" :=
  getIndentation_structural_root cfg _ (Or.inr rfl) _ _ _ _ rfl

/-- Claim C8: for every empty mapping, sequence, tuple and set and every
formatter configuration (hence every indent setting: compact, 0, or any
positive width), the rendered output is exactly the open delimiter
immediately followed by the close delimiter, with no interior
whitespace; in particular `render([], indent=2) = "[]"`. -/
theorem xdumps_empty_containers_render_bare (cfg : TokenFormatter) (f : Nat) :
    xdumpsModel (f + 2) cfg [] (-1) (-1) false (.dict []) = some "\x7b\x7d" ∧
    xdumpsModel (f + 2) cfg [] (-1) (-1) false (.list []) = some "[]" ∧
    xdumpsModel (f + 2) cfg [] (-1) (-1) false (.tuple []) = some "()" ∧
    xdumpsModel (f + 2) cfg [] (-1) (-1) false (.set []) = some "\x7b\x7d" := by
  refine ⟨?_, ?_, ?_, ?_⟩
  · have h : xdumpsModel (f + 2) cfg [] (-1) (-1) false (.dict []) =
        renderTokens cfg [Token.mk .OPEN none false (some (rootTok (.dict []))) none,
                          Token.mk .CLOSE none false (some (rootTok (.dict []))) none] := rfl
    rw [h]
    simp [renderTokens, formatToken, Token.kind, Token.delims, Token.value, Token.value_,
          Token.customization, rootTok, delimitersForValue, parentTruthy, Token.parent,
          pyTruthy, getIndentation_open_root, getIndentation_close_root]
  · have h : xdumpsModel (f + 2) cfg [] (-1) (-1) false (.list []) =
        renderTokens cfg [Token.mk .OPEN none false (some (rootTok (.list []))) none,
                          Token.mk .CLOSE none false (some (rootTok (.list []))) none] := rfl
    rw [h]
    simp [renderTokens, formatToken, Token.kind, Token.delims, Token.value, Token.value_,
          Token.customization, rootTok, delimitersForValue, parentTruthy, Token.parent,
          pyTruthy, getIndentation_open_root, getIndentation_close_root]
  · have h : xdumpsModel (f + 2) cfg [] (-1) (-1) false (.tuple []) =
        renderTokens cfg [Token.mk .OPEN none false (some (rootTok (.tuple []))) none,
                          Token.mk .CLOSE none false (some (rootTok (.tuple []))) none] := rfl
    rw [h]
    simp [renderTokens, formatToken, Token.kind, Token.delims, Token.value, Token.value_,
          Token.customization, rootTok, delimitersForValue, parentTruthy, Token.parent,
          pyTruthy, getIndentation_open_root, getIndentation_close_root]
  · have h : xdumpsModel (f + 2) cfg [] (-1) (-1) false (.set []) =
        renderTokens cfg [Token.mk .OPEN none false (some (rootTok (.set []))) none,
                          Token.mk .CLOSE none false (some (rootTok (.set []))) none] := rfl
    rw [h]
    simp [renderTokens, formatToken, Token.kind, Token.delims, Token.value, Token.value_,
          Token.customization, rootTok, delimitersForValue, parentTruthy, Token.parent,
          pyTruthy, getIndentation_open_root, getIndentation_close_root]

/-- Claim C1, counterexample: the input `{1: (2, 3)}` is a composition of
plain scalars, a mapping and a sequence (a tuple), yet compact-mode
rendering produces `{1: (2, 3)}` while the standard library JSON encoder
produces `{"1": [2, 3]}` (it stringifies non-string keys and encodes
tuples as arrays), so the two outputs are not character-identical. -/
theorem compact_render_differs_from_json_dumps :
    xdumpsModel 30 compactCfg [] (-1) (-1) false (.dict [(.int 1, .tuple [.int 2, .int 3])])
      = some "\x7b1: (2, 3)\x7d" ∧
    jsonDumps (.dict [(.int 1, .tuple [.int 2, .int 3])]) = some "\x7b\"1\": [2, 3]\x7d" ∧
    ("\x7b1: (2, 3)\x7d" : String) ≠ "\x7b\"1\": [2, 3]\x7d" :=
  ⟨by decide, by decide, by decide⟩

/-- Claim C2, counterexample: for the mapping
`{"...": 1, "a": 2, "b": 3}` and `max_width = 2`, the truncation's
trailing `{XRawString("..."): XRawString("...")}` entry collides with
the retained `"..."` key (`XRawString` is a `str` subclass, so the keys
are `==`-equal and the dict assignment overwrites in place), and the
rendered form is `{"...": ..., "a": 2}`: the ellipsis marker is not a
trailing entry (the output's last characters before the closing brace
are the retained item `"a": 2`, not an ellipsis). -/
theorem width_limited_mapping_ellipsis_not_trailing :
    xdumpsModel 30 compactCfg [] 2 (-1) false
        (.dict [(.str "...", .int 1), (.str "a", .int 2), (.str "b", .int 3)])
      = some "\x7b\"...\": ..., \"a\": 2\x7d" ∧
    ("\x7b\"...\": ..., \"a\": 2\x7d" : String).data.reverse.take 4
      ≠ ("...\x7d" : String).data.reverse :=
  ⟨by decide, by decide⟩

/-- Claim C3, counterexample: with `max_depth = 0`, the inner container
of `[[1]]` (a container at depth 1 > 0) renders as the bare ellipsis
text, not as the ellipsis together with its own delimiters: the whole
render is `[...]` (outer brackets only), not `[[...]]`. -/
theorem depth_limited_container_renders_without_delimiters :
    xdumpsModel 30 compactCfg [] (-1) 0 false (.list [.list [.int 1]]) = some "[...]" ∧
    ("[...]" : String) ≠ "[[...]]" :=
  ⟨by decide, by decide⟩

/-! ### Reflexivity of the embedded Python equality -/

mutual

theorem pyEq_refl (v : Value) : pyEq v v = true := by
  cases v with
  | null => rfl
  | bool b => simp [pyEq]
  | int i => simp [pyEq]
  | str s => simp [pyEq]
  | raw s => simp [pyEq]
  | list a => simpa [pyEq] using pyEqList_refl a
  | tuple a => simpa [pyEq] using pyEqList_refl a
  | set a => simpa [pyEq] using pyEqList_refl a
  | dict a => simpa [pyEq] using pyEqPairs_refl a

theorem pyEqList_refl (l : List Value) : pyEq.pyEqList l l = true := by
  cases l with
  | nil => rfl
  | cons x xs => simp [pyEq.pyEqList, pyEq_refl x, pyEqList_refl xs]

theorem pyEqPairs_refl (l : List (Value × Value)) : pyEq.pyEqPairs l l = true := by
  cases l with
  | nil => rfl
  | cons kv rest =>
    cases kv with
    | mk k v => simp [pyEq.pyEqPairs, pyEq_refl k, pyEq_refl v, pyEqPairs_refl rest]

end

/-- Inserting a key that is `==`-equal to no existing key appends. -/
theorem pyDictSetItem_append (l : List (Value × Value)) (k v : Value)
    (h : ∀ kv ∈ l, pyEq kv.1 k = false) :
    pyDictSetItem l k v = l ++ [(k, v)] := by
  induction l with
  | nil => rfl
  | cons kv2 rest ih =>
    have hk := h kv2 (List.mem_cons_self kv2 rest)
    simp [pyDictSetItem, hk]
    exact ih (fun kv hm => h kv (List.mem_cons_of_mem kv2 hm))

/-- Under the dict invariant (pairwise `==`-distinct keys), looking each
key of a prefix back up in the full dict returns the paired value, so
the comprehension `{k: value[k] for k in keys}` is the prefix itself. -/
theorem pyDictGet_take (pairs : List (Value × Value)) (n : Nat)
    (hnod : pairs.Pairwise (fun a b => pyEq a.1 b.1 = false)) :
    (pairs.take n).map (fun kv => (kv.1, pyDictGet pairs kv.1)) = pairs.take n := by
  induction pairs generalizing n with
  | nil => simp
  | cons hd rest ih =>
    cases n with
    | zero => simp
    | succ m =>
      have hhd := (List.pairwise_cons.mp hnod).1
      have hrest := (List.pairwise_cons.mp hnod).2
      have hskip : ∀ kv ∈ rest.take m,
          (fun kv : Value × Value => (kv.1, pyDictGet (hd :: rest) kv.1)) kv
            = (fun kv : Value × Value => (kv.1, pyDictGet rest kv.1)) kv := by
        intro kv hm
        have hne := hhd kv (List.take_subset m rest hm)
        simp [pyDictGet, hne]
      simp only [List.take_succ_cons, List.map_cons]
      rw [List.map_congr_left hskip, ih m hrest]
      cases hd with
      | mk k v => simp [pyDictGet, pyEq_refl]

/-- Claim C2 (amended): for `max_width > 0`, a mapping or sequence with at
most `max_width` items gets no customization from the width limiter (its
node is left unchanged), and one with more than `max_width` items is
overridden with its first `max_width` original items followed by exactly
one trailing ellipsis-marker entry — for mappings under the proviso that
no retained key is `==`-equal to the marker string `"..."` (otherwise
the marker is absorbed into the colliding retained entry instead of
trailing, as the counterexample shows). -/
theorem width_limiter_amended (w : Int) (hw : 0 < w) (d : Nat)
    (pairs : List (Value × Value)) (items : List Value)
    (hnod : pairs.Pairwise (fun a b => pyEq a.1 b.1 = false))
    (hell : ∀ kv ∈ pairs.take w.toNat, pyEq kv.1 (.raw "...") = false) :
    ((pairs.length : Int) ≤ w → maxContainerWidthRun w (.dict pairs) d = .retNone) ∧
    ((pairs.length : Int) > w →
      maxContainerWidthRun w (.dict pairs) d =
        .retCust { value := some (.dict (pairs.take w.toNat ++ [(.raw "...", .raw "...")])) }) ∧
    ((items.length : Int) ≤ w → maxContainerWidthRun w (.list items) d = .retNone) ∧
    ((items.length : Int) > w →
      maxContainerWidthRun w (.list items) d =
        .retCust { value := some (.list (items.take w.toNat ++ [.raw "..."])) }) ∧
    ((items.length : Int) ≤ w → maxContainerWidthRun w (.tuple items) d = .retNone) ∧
    ((items.length : Int) > w →
      maxContainerWidthRun w (.tuple items) d =
        .retCust { value := some (.tuple (items.take w.toNat ++ [.raw "..."])) }) := by
  have hw0 : ¬(w = 0) := by omega
  refine ⟨?_, ?_, ?_, ?_, ?_, ?_⟩
  · intro hle
    simp [maxContainerWidthRun, hw0, show ¬((pairs.length : Int) > w) from by omega]
  · intro hgt
    have hkept := pyDictGet_take pairs w.toNat hnod
    have happ := pyDictSetItem_append (pairs.take w.toNat) (.raw "...") (.raw "...") hell
    simp [maxContainerWidthRun, hw0, hgt, hkept, happ]
  · intro hle
    simp [maxContainerWidthRun, hw0, show ¬((items.length : Int) > w) from by omega]
  · intro hgt
    simp [maxContainerWidthRun, hw0, hgt]
  · intro hle
    simp [maxContainerWidthRun, hw0, show ¬((items.length : Int) > w) from by omega]
  · intro hgt
    simp [maxContainerWidthRun, hw0, hgt]

/-- The pipeline registry when only the depth limiter is configured. -/
theorem depthRegistry_eq (d : Int) (hd : 0 ≤ d) :
    xdumpsRegistry [] (-1) d
      = [wrapDerivedC, depthCustomizer d, pathPosixC, pathC, dataclassC, exceptionC,
         rawStringC] := by
  simp [xdumpsRegistry, maxContainerWidth, maxContainerDepth, show ¬(d < 0) from by omega,
        tokenStreamRegistry, builtinRegistry, register, List.eraseP, depthCustomizer,
        widthCustomizer, pathPosixC, pathC, dataclassC, exceptionC, rawStringC, wrapDerivedC]

/-- With the depth limiter configured at `d ≥ 0`, customizing a container
at a depth exceeding `d` merges exactly the limiter's raw-ellipsis
override (every other pipeline stage defers on containers). -/
theorem customize_depthReg_container (d : Int) (v : Value)
    (hv : isWidthContainer v = true) (k : Nat) (hk : d < (k : Int)) :
    customize [wrapDerivedC, depthCustomizer d, pathPosixC, pathC, dataclassC, exceptionC,
               rawStringC] v k
      = ([wrapDerivedC, depthCustomizer d, pathPosixC, pathC, dataclassC, exceptionC,
          rawStringC],
         some { value := some (.str "..."), raw_string := true }, [7, 6, 4, 3, 2, 1, 0]) := by
  cases v <;> simp [isWidthContainer] at hv <;>
    simp [customize, customizeGo, wrapDerivedC, depthCustomizer, maxContainerDepthRun, hk,
          pathPosixC, pathC, dataclassC, exceptionC, rawStringC]

/-- Claim C3 (amended): with the depth limiter configured at
`max_depth = d ≥ 0`, every container customized at a depth greater than
`d` is emitted as one value token whose compact rendering is exactly the
bare literal ellipsis text `...` — without the container's own
delimiters (the raw-string override is no longer container-shaped, so no
OPEN/CLOSE tokens are produced); and `max_depth < 0` disables the
limiter entirely (no customizer is built and the pipeline registry is
that of a disabled limiter). -/
theorem depth_limiter_amended (d : Int) (f : Nat) (v : Value) (p : Token)
    (hd : 0 ≤ d) (hv : isWidthContainer v = true)
    (hk : d < ((p.depth + 1 : Nat) : Int)) :
    ((emitValueOrContainer (f + 1) (xdumpsRegistry [] (-1) d) v p).map
        (fun out => renderTokens compactCfg out.1)
      = some (some "...")) ∧
    (∀ d2 : Int, d2 < 0 → maxContainerDepth d2 = none ∧
      xdumpsRegistry [] (-1) d2 = xdumpsRegistry [] (-1) (-1)) := by
  constructor
  · rw [depthRegistry_eq d hd]
    have hc := customize_depthReg_container d v hv (p.depth + 1) hk
    simp [emitValueOrContainer, hc, Token.is_container, Token.is_mapping, Token.is_sequence,
          Token.is_set, Token.value, Token.customization, Token.value_,
          XTokenCustomization.override, renderTokens, formatToken, Token.kind, pyStr,
          getIndentation, compactCfg, Token.is_kvv]
  · intro d2 h2
    refine ⟨by simp [maxContainerDepth, h2], ?_⟩
    simp [xdumpsRegistry, maxContainerDepth, h2]

/-- Witness for `depth_limiter_amended`: `max_depth = 0` and the
container `[1]` at depth 1. -/
theorem depth_limiter_amended_witness :
    ((emitValueOrContainer 2 (xdumpsRegistry [] (-1) 0) (.list [.int 1]) (rootTok (.dict []))).map
        (fun out => renderTokens compactCfg out.1)
      = some (some "...")) ∧
    maxContainerDepth (-1) = none :=
  ⟨(depth_limiter_amended 0 1 (.list [.int 1]) (rootTok (.dict [])) (by decide) (by decide)
      (by decide)).1,
   ((depth_limiter_amended 0 1 (.list [.int 1]) (rootTok (.dict [])) (by decide) (by decide)
      (by decide)).2 (-1) (by decide)).1⟩

/-- Witness for `width_limiter_amended` at `max_width = 2`, a three-pair
mapping and a three-element list. -/
theorem width_limiter_amended_witness :
    maxContainerWidthRun 2 (.dict [(.str "a", .int 1), (.str "b", .int 2), (.str "c", .int 3)]) 0
      = .retCust { value := some (.dict [(.str "a", .int 1), (.str "b", .int 2),
                                         (.raw "...", .raw "...")]) } ∧
    maxContainerWidthRun 2 (.list [.int 1, .int 2, .int 3]) 0
      = .retCust { value := some (.list [.int 1, .int 2, .raw "..."]) } ∧
    maxContainerWidthRun 2 (.dict [(.str "a", .int 1), (.str "b", .int 2)]) 0 = .retNone := by
  have h := width_limiter_amended 2 (by decide) 0
    [(.str "a", .int 1), (.str "b", .int 2), (.str "c", .int 3)]
    [.int 1, .int 2, .int 3]
    (by decide) (by decide)
  refine ⟨?_, ?_, ?_⟩
  · have := h.2.1 (by decide)
    simpa using this
  · have := h.2.2.2.1 (by decide)
    simpa using this
  · have h2 := width_limiter_amended 2 (by decide) 0
      [(.str "a", .int 1), (.str "b", .int 2)] []
      (by decide) (by decide)
    exact h2.1 (by decide)

/-! ### Claim C9: the escape_unicode flag is never consulted -/

theorem formatToken_escape_irrelevant (i : Option Int) (s : Option (String × String))
    (l : String × String × String) (b b2 : Bool) (t : Token) :
    formatToken ⟨i, s, l, b⟩ t = formatToken ⟨i, s, l, b2⟩ t := by
  cases t with
  | mk k v kvv p c => cases k <;> rfl

/-- Claim C9: for every input value, every fuel, every registry
configuration and every fixed choice of the other formatting options,
the rendered output with `escape_unicode = True` is identical to the
output with `escape_unicode = False`: the flag is stored on the
formatter but never consulted, so non-ASCII escaping is fixed by the
underlying JSON string encoding. -/
theorem escape_unicode_never_consulted (f : Nat) (cfg : TokenFormatter)
    (user : List Customizer) (w d : Int) (bypass : Bool) (v : Value) :
    xdumpsModel f { cfg with escape_unicode := true } user w d bypass v
      = xdumpsModel f { cfg with escape_unicode := false } user w d bypass v := by
  rcases cfg with ⟨i, s, l, e⟩
  have hrt : ∀ ts, renderTokens ⟨i, s, l, true⟩ ts = renderTokens ⟨i, s, l, false⟩ ts := by
    intro ts
    induction ts with
    | nil => rfl
    | cons t ts ih => simp [renderTokens, formatToken_escape_irrelevant i s l true false t, ih]
  cases v <;> simp [xdumpsModel, hrt]

/-! ### Claim C10: registration order -/

/-- Folding `register` over customizers whose ids are fresh for the base
registry prepends them in reverse order (each lands at index 0). -/
theorem register_foldl_fresh (l : List Customizer) :
    ∀ base : List Customizer,
      (∀ f ∈ l, ∀ g ∈ base, g.id ≠ f.id) →
      (l.map (·.id)).Nodup →
      l.foldl (fun acc f => register f acc) base = l.reverse ++ base := by
  induction l with
  | nil => intro base _ _; rfl
  | cons f r ih =>
    intro base hfresh hnd
    have herase : base.eraseP (fun g => g.id == f.id) = base := by
      apply List.eraseP_of_forall_not
      intro g hg
      simpa using hfresh f (List.mem_cons_self f r) g hg
    have hstep : register f base = f :: base := by simp [register, herase]
    have hnd' : (r.map (·.id)).Nodup := (List.nodup_cons.mp hnd).2
    have hidf : f.id ∉ r.map (·.id) := (List.nodup_cons.mp hnd).1
    have hfresh' : ∀ f2 ∈ r, ∀ g ∈ f :: base, g.id ≠ f2.id := by
      intro f2 hf2 g hg
      rcases List.mem_cons.mp hg with hg | hg
      · subst hg
        intro hcontra
        exact hidf (hcontra ▸ List.mem_map_of_mem (·.id) hf2)
      · exact hfresh f2 (List.mem_cons_of_mem f hf2) g hg
    calc (f :: r).foldl (fun acc f => register f acc) base
        = r.foldl (fun acc f => register f acc) (f :: base) := by simp [hstep]
      _ = r.reverse ++ (f :: base) := ih (f :: base) hfresh' hnd'
      _ = (f :: r).reverse ++ base := by simp

/-- Claim C10: with both limiters configured, the registry `xdumps`
builds hands `TokenStream` the list `user ++ [path-as-posix, width,
depth, wrap]`, and `TokenStream.__init__` registers each at index 0 in
turn over the four freshly reset built-ins; since `customize` iterates
the list in ascending index order, the wrap-derived-class-instances
customizer (appended last) is invoked first, then the depth limiter,
width limiter and path customizer, then the user customizers in reverse
of their supplied order, and the four built-in default stages last.
The freshness hypotheses model Python function-object identity: the
supplied customizers are distinct objects, distinct from the pipeline
stages (whose ids are 0–7). -/
theorem xdumps_registration_order (user : List Customizer) (w d : Int)
    (hw : 0 ≤ w) (hd : 0 ≤ d)
    (hnd : (user.map (·.id)).Nodup) (hfresh : ∀ c ∈ user, 8 ≤ c.id) :
    xdumpsRegistry user w d
      = [wrapDerivedC, depthCustomizer d, widthCustomizer w, pathPosixC]
          ++ user.reverse
          ++ [pathC, dataclassC, exceptionC, rawStringC] := by
  have hw' : ¬(w < 0) := by omega
  have hd' : ¬(d < 0) := by omega
  have hextras : xdumpsRegistry user w d
      = (user ++ [pathPosixC, widthCustomizer w, depthCustomizer d, wrapDerivedC]).foldl
          (fun acc f => register f acc) builtinRegistry := by
    simp [xdumpsRegistry, tokenStreamRegistry, maxContainerWidth, maxContainerDepth, hw', hd']
  have hbuiltin : builtinRegistry = [pathC, dataclassC, exceptionC, rawStringC] := rfl
  have h1 : ∀ f ∈ user ++ [pathPosixC, widthCustomizer w, depthCustomizer d, wrapDerivedC],
      ∀ g ∈ builtinRegistry, g.id ≠ f.id := by
    intro f hf g hg
    have hgid : g.id ≤ 3 := by
      rw [hbuiltin] at hg
      fin_cases hg <;> decide
    have hfid : 4 ≤ f.id := by
      rcases List.mem_append.mp hf with hf | hf
      · have := hfresh f hf
        omega
      · fin_cases hf <;>
          norm_num [pathPosixC, widthCustomizer, depthCustomizer, wrapDerivedC]
    omega
  have h2 : ((user ++ [pathPosixC, widthCustomizer w, depthCustomizer d,
      wrapDerivedC]).map (·.id)).Nodup := by
    rw [List.map_append, List.nodup_append]
    refine ⟨hnd, (by decide : ([(4 : Nat), 5, 6, 7]).Nodup), ?_⟩
    intro a ha hb
    rcases List.mem_map.mp ha with ⟨c, hc, rfl⟩
    have h8 := hfresh c hc
    have hb7 : c.id ≤ 7 := by
      rcases List.mem_map.mp hb with ⟨g, hg, hgid⟩
      rw [← hgid]
      fin_cases hg <;>
        norm_num [pathPosixC, widthCustomizer, depthCustomizer, wrapDerivedC]
    omega
  rw [hextras, register_foldl_fresh _ builtinRegistry h1 h2, hbuiltin]
  simp

/-- Witness for `xdumps_registration_order`: two user customizers
(ids 10 and 11) with both limiters configured. -/
theorem xdumps_registration_order_witness :
    xdumpsRegistry [⟨10, fun _ _ => .retNone⟩, ⟨11, fun _ _ => .retNone⟩] 1 2
      = [wrapDerivedC, depthCustomizer 2, widthCustomizer 1, pathPosixC,
         ⟨11, fun _ _ => .retNone⟩, ⟨10, fun _ _ => .retNone⟩,
         pathC, dataclassC, exceptionC, rawStringC] := by
  have h := xdumps_registration_order
    [⟨10, fun _ _ => .retNone⟩, ⟨11, fun _ _ => .retNone⟩] 1 2
    (by decide) (by decide) (by decide)
    (by intro c hc; fin_cases hc <;> decide)
  simpa using h

/-! ### Claim C4: a raising customizer is removed and never re-invoked -/

theorem customizeGo_registry_subset (v : Value) (d : Nat) :
    ∀ (l : List Customizer) (merged : Option XTokenCustomization),
      ∀ c ∈ (customizeGo v d l merged).1, c ∈ l := by
  intro l
  induction l with
  | nil => intro merged c hc; simp [customizeGo] at hc
  | cons hd rest ih =>
    intro merged c hc
    cases hrun : hd.run v d with
    | raises =>
      simp only [customizeGo, hrun] at hc
      exact List.mem_cons_of_mem hd (ih merged c hc)
    | retNone =>
      simp only [customizeGo, hrun] at hc
      rcases List.mem_cons.mp hc with h | h
      · exact h ▸ List.mem_cons_self hd rest
      · exact List.mem_cons_of_mem hd (ih merged c h)
    | retStr s =>
      simp only [customizeGo, hrun] at hc
      exact hc
    | retCust x =>
      simp only [customizeGo, hrun] at hc
      by_cases hcont : x.continue_chain
      · simp only [if_pos hcont] at hc
        rcases List.mem_cons.mp hc with h | h
        · exact h ▸ List.mem_cons_self hd rest
        · exact List.mem_cons_of_mem hd (ih _ c h)
      · simp only [if_neg hcont] at hc
        exact hc

theorem customizeGo_invoked_subset (v : Value) (d : Nat) :
    ∀ (l : List Customizer) (merged : Option XTokenCustomization),
      ∀ i ∈ (customizeGo v d l merged).2.2, i ∈ l.map (·.id) := by
  intro l
  induction l with
  | nil => intro merged i hi; simp [customizeGo] at hi
  | cons hd rest ih =>
    intro merged i hi
    cases hrun : hd.run v d with
    | raises =>
      simp only [customizeGo, hrun] at hi
      rcases List.mem_cons.mp hi with h | h
      · exact h ▸ List.mem_map_of_mem (·.id) (List.mem_cons_self hd rest)
      · exact List.mem_cons_of_mem hd.id (ih merged i h)
    | retNone =>
      simp only [customizeGo, hrun] at hi
      rcases List.mem_cons.mp hi with h | h
      · exact h ▸ List.mem_map_of_mem (·.id) (List.mem_cons_self hd rest)
      · exact List.mem_cons_of_mem hd.id (ih merged i h)
    | retStr s =>
      simp only [customizeGo, hrun] at hi
      rcases List.mem_singleton.mp hi with h
      exact h ▸ List.mem_map_of_mem (·.id) (List.mem_cons_self hd rest)
    | retCust x =>
      simp only [customizeGo, hrun] at hi
      by_cases hcont : x.continue_chain
      · simp only [if_pos hcont] at hi
        rcases List.mem_cons.mp hi with h | h
        · exact h ▸ List.mem_map_of_mem (·.id) (List.mem_cons_self hd rest)
        · exact List.mem_cons_of_mem hd.id (ih _ i h)
      · simp only [if_neg hcont] at hi
        rcases List.mem_singleton.mp hi with h
        exact h ▸ List.mem_map_of_mem (·.id) (List.mem_cons_self hd rest)

theorem customizeGo_raise_removed (v : Value) (d : Nat) (c : Customizer)
    (hraise : ∀ u n, c.run u n = .raises) :
    ∀ (l : List Customizer) (merged : Option XTokenCustomization),
      (l.map (·.id)).Nodup → c ∈ l →
      c.id ∈ (customizeGo v d l merged).2.2 →
      c.id ∉ (customizeGo v d l merged).1.map (·.id) := by
  intro l
  induction l with
  | nil => intro merged _ hmem _; simp at hmem
  | cons hd rest ih =>
    intro merged hnd hmem hinv
    have hndrest : (rest.map (·.id)).Nodup := (List.nodup_cons.mp hnd).2
    have hhd : hd.id ∉ rest.map (·.id) := (List.nodup_cons.mp hnd).1
    rcases List.mem_cons.mp hmem with hc | hc
    · -- the raising customizer is the head: it raises and is popped
      subst hc
      simp only [customizeGo, hraise v d]
      intro habs
      rcases List.mem_map.mp habs with ⟨g, hg, hgid⟩
      exact hhd (hgid ▸ List.mem_map_of_mem (·.id)
        (customizeGo_registry_subset v d rest merged g hg))
    · -- the raising customizer is in the tail
      have hcid : c.id ∈ rest.map (·.id) := List.mem_map_of_mem (·.id) hc
      have hne : c.id ≠ hd.id := fun h => hhd (h ▸ hcid)
      cases hrun : hd.run v d with
      | raises =>
        simp only [customizeGo, hrun] at hinv ⊢
        rcases List.mem_cons.mp hinv with h | h
        · exact absurd h hne
        · exact ih merged hndrest hc h
      | retNone =>
        simp only [customizeGo, hrun] at hinv ⊢
        rcases List.mem_cons.mp hinv with h | h
        · exact absurd h hne
        · intro habs
          rcases List.mem_cons.mp habs with h2 | h2
          · exact hne h2
          · exact ih merged hndrest hc h h2
      | retStr s =>
        simp only [customizeGo, hrun] at hinv
        exact absurd (List.mem_singleton.mp hinv) hne
      | retCust x =>
        simp only [customizeGo, hrun] at hinv ⊢
        by_cases hcont : x.continue_chain
        · simp only [if_pos hcont] at hinv ⊢
          rcases List.mem_cons.mp hinv with h | h
          · exact absurd h hne
          · intro habs
            rcases List.mem_cons.mp habs with h2 | h2
            · exact hne h2
            · exact ih _ hndrest hc h h2
        · simp only [if_neg hcont] at hinv
          exact absurd (List.mem_singleton.mp hinv) hne

/-- Iterated `customize` calls on an evolving registry
(each call's output registry feeds the next call). -/
def customizeMany (reg : List Customizer) (qs : List (Value × Nat)) : List Customizer :=
  qs.foldl (fun acc q => (customize acc q.1 q.2).1) reg

theorem customizeMany_id_subset (qs : List (Value × Nat)) :
    ∀ (reg : List Customizer) (i : Nat),
      i ∈ (customizeMany reg qs).map (·.id) → i ∈ reg.map (·.id) := by
  induction qs with
  | nil => intro reg i hi; simpa [customizeMany] using hi
  | cons q rest ih =>
    intro reg i hi
    have step : customizeMany reg (q :: rest) = customizeMany (customize reg q.1 q.2).1 rest :=
      rfl
    rw [step] at hi
    have := ih (customize reg q.1 q.2).1 i hi
    rcases List.mem_map.mp this with ⟨g, hg, hgid⟩
    exact hgid ▸ List.mem_map_of_mem (·.id)
      (customizeGo_registry_subset q.1 q.2 reg none g hg)

/-- Claim C4: a customizer that raises is removed from the registry by
the `customize` call that invokes it (iteration then continues from the
same position with the shortened list, and the call itself returns
normally rather than aborting — `customize` is total by construction);
afterwards no later `customize` call on the same registry — including
any chain of further calls, as a subsequent `render` performs — ever
invokes the removed customizer again. -/
theorem raising_customizer_removed (reg : List Customizer) (v : Value) (d : Nat)
    (c : Customizer) (hraise : ∀ u n, c.run u n = .raises)
    (hnd : (reg.map (·.id)).Nodup) (hmem : c ∈ reg)
    (hinv : c.id ∈ (customize reg v d).2.2) :
    c.id ∉ ((customize reg v d).1.map (·.id)) ∧
    (∀ qs : List (Value × Nat),
      c.id ∉ ((customizeMany (customize reg v d).1 qs).map (·.id))) ∧
    (∀ qs : List (Value × Nat), ∀ (v2 : Value) (d2 : Nat),
      c.id ∉ (customize (customizeMany (customize reg v d).1 qs) v2 d2).2.2) := by
  have hrem := customizeGo_raise_removed v d c hraise reg none hnd hmem hinv
  refine ⟨hrem, ?_, ?_⟩
  · intro qs habs
    exact hrem (customizeMany_id_subset qs _ c.id habs)
  · intro qs v2 d2 habs
    exact hrem (customizeMany_id_subset qs _ c.id
      (customizeGo_invoked_subset v2 d2 _ none c.id habs))

/-- Witness for `raising_customizer_removed`: an always-raising
customizer (id 100) ahead of the raw-string built-in; after one
`customize` call it is gone from the registry, and a later call on the
evolved registry does not invoke id 100. -/
theorem raising_customizer_removed_witness :
    (100 : Nat) ∉ ((customize [⟨100, fun _ _ => .raises⟩, rawStringC] .null 0).1.map (·.id)) ∧
    (100 : Nat) ∉ (customize
        (customizeMany (customize [⟨100, fun _ _ => .raises⟩, rawStringC] .null 0).1
          [(.int 5, 1)]) (.str "x") 2).2.2 :=
  ⟨(raising_customizer_removed [⟨100, fun _ _ => .raises⟩, rawStringC] .null 0
      ⟨100, fun _ _ => .raises⟩ (fun _ _ => rfl) (by decide)
      (List.mem_cons_self _ _) (by decide)).1,
   (raising_customizer_removed [⟨100, fun _ _ => .raises⟩, rawStringC] .null 0
      ⟨100, fun _ _ => .raises⟩ (fun _ _ => rfl) (by decide)
      (List.mem_cons_self _ _) (by decide)).2.2 [(.int 5, 1)] (.str "x") 2⟩

/-! ### Claim C5: merge semantics of the customizer chain -/

/-- The last non-`none` entry of a list of options (the "last non-default
setting" of an optional field along the chain). -/
def lastSome {α : Type} (l : List (Option α)) : Option α :=
  l.foldl (fun acc o => if o.isSome then o else acc) none

/-- Same, but starting from an initial value. -/
def lastSomeD {α : Type} (init : Option α) (l : List (Option α)) : Option α :=
  l.foldl (fun acc o => if o.isSome then o else acc) init

/-- The prefix of customization results the chain actually processes: it
stops at (and includes) the first result carrying
`continue_chain = false`. -/
def consideredResults : List XTokenCustomization → List XTokenCustomization
  | [] => []
  | x :: r => if x.continue_chain then x :: consideredResults r else [x]

/-- A customizer that deterministically returns a fixed
`XTokenCustomization` (tagged with its position as id). -/
def mkCust (p : Nat × XTokenCustomization) : Customizer := ⟨p.1, fun _ _ => .retCust p.2⟩

/-- One accumulator step of the chain merge, on the optional
accumulator. -/
def mergeStepOpt (acc : Option XTokenCustomization) (x : XTokenCustomization) :
    Option XTokenCustomization :=
  some (match acc with | none => x | some a => mergeCustomization a x)

theorem customizeGo_mkCust (v : Value) (d : Nat) :
    ∀ (rs : List XTokenCustomization) (k : Nat) (m0 : Option XTokenCustomization),
      customizeGo v d ((rs.enumFrom k).map mkCust) m0
        = ((rs.enumFrom k).map mkCust,
           (consideredResults rs).foldl mergeStepOpt m0,
           List.range' k (consideredResults rs).length) := by
  intro rs
  induction rs with
  | nil => intro k m0; rfl
  | cons x r ih =>
    intro k m0
    by_cases hcont : x.continue_chain
    · simp [List.enumFrom, customizeGo, mkCust, consideredResults, hcont, ih (k + 1),
            mergeStepOpt, List.range']
    · simp [List.enumFrom, customizeGo, mkCust, consideredResults, hcont, mergeStepOpt,
            List.range']

theorem foldl_mergeStepOpt_some (cs : List XTokenCustomization) :
    ∀ a : XTokenCustomization,
      cs.foldl mergeStepOpt (some a) = some (cs.foldl mergeCustomization a) := by
  induction cs with
  | nil => intro a; rfl
  | cons x r ih => intro a; simpa [mergeStepOpt] using ih (mergeCustomization a x)

theorem mergeFold_fields (cs : List XTokenCustomization) :
    ∀ a : XTokenCustomization,
      (cs.foldl mergeCustomization a).delimiters
          = lastSomeD a.delimiters (cs.map (·.delimiters)) ∧
      (cs.foldl mergeCustomization a).value
          = lastSomeD a.value (cs.map (·.value)) ∧
      (cs.foldl mergeCustomization a).raw_string
          = (a.raw_string || cs.any (·.raw_string)) ∧
      (cs.foldl mergeCustomization a).raw_key_strings
          = (a.raw_key_strings || cs.any (·.raw_key_strings)) ∧
      (cs.foldl mergeCustomization a).source_type
          = lastSomeD a.source_type (cs.map (·.source_type)) := by
  induction cs with
  | nil => intro a; simp [lastSomeD]
  | cons x r ih =>
    intro a
    have h := ih (mergeCustomization a x)
    refine ⟨?_, ?_, ?_, ?_, ?_⟩ <;>
      simp [lastSomeD, mergeCustomization, XTokenCustomization.override, Bool.or_assoc] at h ⊢ <;>
      tauto

theorem lastSome_cons {α : Type} (o : Option α) (l : List (Option α)) :
    lastSome (o :: l) = lastSomeD o l := by
  have : (if o.isSome then o else none) = o := by cases o <;> rfl
  simp [lastSome, lastSomeD, this]

/-- Claim C5: running the chain over customizers that return the results
`first :: rest` in order merges them into a single accumulator in which
each of `delimiters`, `value_override` (`value`), `raw_string`,
`raw_key_strings` and `source_type` equals the last non-default setting
of that field among the processed results in chain order (for the
latched booleans, `true` exactly when some processed result set them);
the processed results are exactly the prefix up to and including the
first result with `continue_chain = false` — the invoked-id list
`range L` shows the chain stops there and no later customizer runs. -/
theorem chain_merge_last_non_default (first : XTokenCustomization)
    (rest : List XTokenCustomization) (v : Value) (d : Nat) :
    ∃ m : XTokenCustomization,
      customize (((first :: rest).enum).map mkCust) v d
        = ((((first :: rest).enum).map mkCust), some m,
           List.range (consideredResults (first :: rest)).length) ∧
      m.delimiters = lastSome ((consideredResults (first :: rest)).map (·.delimiters)) ∧
      m.value = lastSome ((consideredResults (first :: rest)).map (·.value)) ∧
      m.raw_string = (consideredResults (first :: rest)).any (·.raw_string) ∧
      m.raw_key_strings = (consideredResults (first :: rest)).any (·.raw_key_strings) ∧
      m.source_type = lastSome ((consideredResults (first :: rest)).map (·.source_type)) := by
  obtain ⟨tail, htail⟩ : ∃ tail, consideredResults (first :: rest) = first :: tail := by
    by_cases h : first.continue_chain <;> simp [consideredResults, h]
  have hgo := customizeGo_mkCust v d (first :: rest) 0 none
  rw [htail] at hgo
  have hfold : (first :: tail).foldl mergeStepOpt none
      = some (tail.foldl mergeCustomization first) := by
    have h0 : mergeStepOpt none first = some first := rfl
    simp [List.foldl_cons, h0, foldl_mergeStepOpt_some]
  rw [hfold] at hgo
  refine ⟨tail.foldl mergeCustomization first, ?_, ?_, ?_, ?_, ?_, ?_⟩
  · have henum : (((first :: rest).enum).map mkCust)
        = (((first :: rest).enumFrom 0).map mkCust) := rfl
    rw [henum, htail]
    rw [List.range_eq_range']
    exact hgo
  · rw [htail, List.map_cons, lastSome_cons]
    exact (mergeFold_fields tail first).1
  · rw [htail, List.map_cons, lastSome_cons]
    exact (mergeFold_fields tail first).2.1
  · rw [htail]
    have := (mergeFold_fields tail first).2.2.1
    simp [this]
  · rw [htail]
    have := (mergeFold_fields tail first).2.2.2.1
    simp [this]
  · rw [htail, List.map_cons, lastSome_cons]
    exact (mergeFold_fields tail first).2.2.2.2

/-! ### Claim C6: item separators appear only between surviving items -/

/-- The ITEM_SEP token a container's emission loop yields. -/
def sepTok (ct : Token) : Token := .mk .ITEM_SEP none false (some ct) none

/-- Chunk joining as the emission loops produce it: with
`emittedAny = false` the separator goes exactly between chunks, with
`emittedAny = true` it additionally precedes the first chunk. -/
def intercalateB (sep : Token) : Bool → List (List Token) → List Token
  | _, [] => []
  | b, c :: cs => (if b then [sep] else []) ++ c ++ intercalateB sep true cs

theorem intercalate_cons_eq_intercalateB (s : Token) :
    ∀ (cs : List (List Token)) (c : List Token),
      List.intercalate [s] (c :: cs) = c ++ intercalateB s true cs := by
  intro cs
  induction cs with
  | nil => intro c; simp [List.intercalate, intercalateB]
  | cons c2 cs2 ih =>
    intro c
    have h2 := ih c2
    simp [List.intercalate, List.intersperse] at h2 ⊢
    simp [intercalateB, h2]

theorem intercalateB_false_eq (s : Token) (chunks : List (List Token)) :
    intercalateB s false chunks = List.intercalate [s] chunks := by
  cases chunks with
  | nil => simp [intercalateB, List.intercalate]
  | cons c cs => simp [intercalateB, intercalate_cons_eq_intercalateB]

/-- Every emission of a value (atom or container) is non-empty. -/
theorem emitValueOrContainer_ne_nil (f : Nat) (reg : List Customizer) (v : Value)
    (p : Token) (out : EmitOut) (h : emitValueOrContainer f reg v p = some out) :
    out.1 ≠ [] := by
  cases f with
  | zero => simp [emitValueOrContainer] at h
  | succ f =>
    simp only [emitValueOrContainer] at h
    split at h
    · obtain ⟨ts, hinner, hshape⟩ := wrapChildren_some _ _ _ _ h
      rw [hshape]
      simp
    · injection h with h
      rw [← h]
      simp

/-- Every emission of a mapping pair is non-empty. -/
theorem emitMappingPair_ne_nil (f : Nat) (reg : List Customizer) (ct : Token)
    (k v : Value) (out : List Token × List Customizer × Nat)
    (h : emitMappingPair f reg ct k v = some out) : out.1 ≠ [] := by
  cases f with
  | zero => simp [emitMappingPair] at h
  | succ f =>
    simp only [emitMappingPair] at h
    rw [Option.bind_eq_some] at h
    obtain ⟨kp, hkp, h⟩ := h
    rw [Option.bind_eq_some] at h
    obtain ⟨vp, hvp, h⟩ := h
    cases h
    simp

/-- Membership helper: inside an OPEN/children/CLOSE block emitted for a
child VALUE token of `ct`, every ITEM_SEP has a parent strictly deeper
than `ct`. -/
theorem part_sepDepth (f : Nat)
    (ihC : ∀ (reg : List Customizer) (ct : Token) (out : EmitOut),
      emitContainerItems f reg ct = some out →
      ∀ t ∈ out.1, t.kind = .ITEM_SEP → ∃ w, t.parent = some w ∧ ct.depth ≤ w.depth)
    (ct : Token) {reg reg2 : List Customizer} {ts : List Token}
    {x : Option Value} {y kv : Bool} {z : Option XTokenCustomization} (t : Token)
    (ht : t ∈ Token.mk .OPEN none kv (some (Token.mk .VALUE x y (some ct) z)) none
            :: ts ++ [Token.mk .CLOSE none false (some (Token.mk .VALUE x y (some ct) z)) none])
    (hk : t.kind = .ITEM_SEP)
    (heq : emitContainerItems f reg (.mk .VALUE x y (some ct) z) = some (ts, reg2)) :
    ∃ w, t.parent = some w ∧ ct.depth < w.depth := by
  rcases List.mem_cons.mp ht with rfl | ht2
  · simp [Token.kind] at hk
  rcases List.mem_append.mp ht2 with h3 | h3
  · obtain ⟨w, hw1, hw2⟩ := ihC _ _ _ heq t h3 hk
    refine ⟨w, hw1, ?_⟩
    simp [Token.depth] at hw2
    omega
  · rcases List.mem_singleton.mp h3 with rfl
    simp [Token.kind] at hk

/-- Depth discipline of ITEM_SEP parents across the whole traversal: an
ITEM_SEP emitted anywhere inside a child emission points at a container
token strictly deeper than the parent of that emission, and inside a
container's own item loops at the loop's container or deeper. -/
theorem sepDepth_bundle : ∀ f : Nat,
    (∀ (reg : List Customizer) (v : Value) (p : Token) (out : EmitOut),
      emitValueOrContainer f reg v p = some out →
      ∀ t ∈ out.1, t.kind = .ITEM_SEP → ∃ w, t.parent = some w ∧ p.depth < w.depth) ∧
    (∀ (reg : List Customizer) (ct : Token) (out : EmitOut),
      emitContainerItems f reg ct = some out →
      ∀ t ∈ out.1, t.kind = .ITEM_SEP → ∃ w, t.parent = some w ∧ ct.depth ≤ w.depth) ∧
    (∀ (reg : List Customizer) (ct : Token) (items : List Value) (b : Bool) (out : EmitOut),
      emitSequenceItems f reg ct items b = some out →
      ∀ t ∈ out.1, t.kind = .ITEM_SEP → ∃ w, t.parent = some w ∧ ct.depth ≤ w.depth) ∧
    (∀ (reg : List Customizer) (ct : Token) (pairs : List (Value × Value)) (b : Bool)
        (out : EmitOut),
      emitMappingItems f reg ct pairs b = some out →
      ∀ t ∈ out.1, t.kind = .ITEM_SEP → ∃ w, t.parent = some w ∧ ct.depth ≤ w.depth) ∧
    (∀ (reg : List Customizer) (ct : Token) (k v : Value)
        (out : List Token × List Customizer × Nat),
      emitMappingPair f reg ct k v = some out →
      ∀ t ∈ out.1, t.kind = .ITEM_SEP → ∃ w, t.parent = some w ∧ ct.depth < w.depth) := by
  intro f
  induction f with
  | zero =>
    refine ⟨?_, ?_, ?_, ?_, ?_⟩
    · intro reg v p out h; simp [emitValueOrContainer] at h
    · intro reg ct out h; simp [emitContainerItems] at h
    · intro reg ct items b out h t ht hk
      cases items with
      | nil =>
        have : out = ([], reg) := by
          simpa [emitSequenceItems] using h.symm
        rw [this] at ht
        simp at ht
      | cons x rest => simp [emitSequenceItems] at h
    · intro reg ct pairs b out h t ht hk
      cases pairs with
      | nil =>
        have : out = ([], reg) := by
          simpa [emitMappingItems] using h.symm
        rw [this] at ht
        simp at ht
      | cons x rest => simp [emitMappingItems] at h
    · intro reg ct k v out h; simp [emitMappingPair] at h
  | succ f ih =>
    obtain ⟨ihV, ihC, ihS, ihM, ihP⟩ := ih
    have hV : ∀ (reg : List Customizer) (v : Value) (p : Token) (out : EmitOut),
        emitValueOrContainer (f + 1) reg v p = some out →
        ∀ t ∈ out.1, t.kind = .ITEM_SEP → ∃ w, t.parent = some w ∧ p.depth < w.depth := by
      intro reg v p out h t ht hk
      simp only [emitValueOrContainer] at h
      split at h
      · obtain ⟨ts, hinner, hshape⟩ := wrapChildren_some _ _ _ _ h
        rw [hshape] at ht
        exact part_sepDepth f ihC p t ht hk hinner
      · cases h
        rcases List.mem_singleton.mp ht with rfl
        simp [Token.kind] at hk
    have hC : ∀ (reg : List Customizer) (ct : Token) (out : EmitOut),
        emitContainerItems (f + 1) reg ct = some out →
        ∀ t ∈ out.1, t.kind = .ITEM_SEP → ∃ w, t.parent = some w ∧ ct.depth ≤ w.depth := by
      intro reg ct out h t ht hk
      simp only [emitContainerItems] at h
      split at h
      · split at h
        · exact ihM _ _ _ _ _ h t ht hk
        · exact Option.noConfusion h
      · split at h
        · split at h
          · exact ihS _ _ _ _ _ h t ht hk
          · exact ihS _ _ _ _ _ h t ht hk
          · exact ihS _ _ _ _ _ h t ht hk
          · exact Option.noConfusion h
        · exact Option.noConfusion h
    have hP : ∀ (reg : List Customizer) (ct : Token) (k v : Value)
        (out : List Token × List Customizer × Nat),
        emitMappingPair (f + 1) reg ct k v = some out →
        ∀ t ∈ out.1, t.kind = .ITEM_SEP → ∃ w, t.parent = some w ∧ ct.depth < w.depth := by
      intro reg ct k v out h t ht hk
      simp only [emitMappingPair] at h
      rw [Option.bind_eq_some] at h
      obtain ⟨kp, hkp, h⟩ := h
      rw [Option.bind_eq_some] at h
      obtain ⟨vp, hvp, h⟩ := h
      cases h
      rcases List.mem_append.mp ht with hmem | hmem
      · split at hkp
        · obtain ⟨ts, hinner, hshape⟩ := wrapChildren_some _ _ _ _ hkp
          rw [hshape] at hmem
          exact part_sepDepth f ihC ct t hmem hk hinner
        · cases hkp
          rcases List.mem_singleton.mp hmem with rfl
          simp [Token.kind] at hk
      · rcases List.mem_cons.mp hmem with rfl | hmem2
        · simp [Token.kind] at hk
        · split at hvp
          · obtain ⟨ts, hinner, hshape⟩ := wrapChildren_some _ _ _ _ hvp
            rw [hshape] at hmem2
            exact part_sepDepth f ihC ct t hmem2 hk hinner
          · cases hvp
            rcases List.mem_singleton.mp hmem2 with rfl
            simp [Token.kind] at hk
    have hS : ∀ (reg : List Customizer) (ct : Token) (items : List Value) (b : Bool)
        (out : EmitOut),
        emitSequenceItems (f + 1) reg ct items b = some out →
        ∀ t ∈ out.1, t.kind = .ITEM_SEP → ∃ w, t.parent = some w ∧ ct.depth ≤ w.depth := by
      intro reg ct items b out h t ht hk
      cases items with
      | nil =>
        have : out = ([], reg) := by simpa [emitSequenceItems] using h.symm
        rw [this] at ht
        simp at ht
      | cons x rest =>
        simp only [emitSequenceItems] at h
        split at h
        · exact ihS _ _ _ _ _ h t ht hk
        · split at h
          · exact Option.noConfusion h
          · split at h
            · exact Option.noConfusion h
            · cases h
              rcases List.mem_append.mp ht with hmem | hts
              · rcases List.mem_append.mp hmem with hsep | hv
                · cases b with
                  | false => simp at hsep
                  | true =>
                    rcases List.mem_singleton.mp hsep with rfl
                    exact ⟨ct, rfl, le_refl _⟩
                · obtain ⟨w, hw1, hw2⟩ := ihV _ _ _ _ (by assumption) t hv hk
                  exact ⟨w, hw1, le_of_lt hw2⟩
              · exact ihS _ _ _ _ _ (by assumption) t hts hk
    have hM : ∀ (reg : List Customizer) (ct : Token) (pairs : List (Value × Value)) (b : Bool)
        (out : EmitOut),
        emitMappingItems (f + 1) reg ct pairs b = some out →
        ∀ t ∈ out.1, t.kind = .ITEM_SEP → ∃ w, t.parent = some w ∧ ct.depth ≤ w.depth := by
      intro reg ct pairs b out h t ht hk
      cases pairs with
      | nil =>
        have : out = ([], reg) := by simpa [emitMappingItems] using h.symm
        rw [this] at ht
        simp at ht
      | cons x rest =>
        simp only [emitMappingItems] at h
        split at h
        · exact ihM _ _ _ _ _ h t ht hk
        · split at h
          · exact Option.noConfusion h
          · split at h
            · exact Option.noConfusion h
            · cases h
              rcases List.mem_append.mp ht with hmem | hts
              · rcases List.mem_append.mp hmem with hsep | hv
                · cases b with
                  | false => simp at hsep
                  | true =>
                    rcases List.mem_singleton.mp hsep with rfl
                    exact ⟨ct, rfl, le_refl _⟩
                · obtain ⟨w, hw1, hw2⟩ := ihP _ _ _ _ _ (by assumption) t hv hk
                  exact ⟨w, hw1, le_of_lt hw2⟩
              · exact ihM _ _ _ _ _ (by assumption) t hts hk
    exact ⟨hV, hC, hS, hM, hP⟩

/-- The sequence/set emission loop produces exactly the surviving items'
emissions joined by ITEM_SEP tokens of the loop's container. -/
theorem seqItems_chunks : ∀ (f : Nat) (reg : List Customizer) (ct : Token)
    (items : List Value) (b : Bool) (out : EmitOut),
    emitSequenceItems f reg ct items b = some out →
    ∃ chunks : List (List Token),
      (∀ c ∈ chunks, c ≠ []) ∧
      (∀ c ∈ chunks, ∀ t ∈ c, ¬(t.kind = .ITEM_SEP ∧ t.parent = some ct)) ∧
      out.1 = intercalateB (sepTok ct) b chunks := by
  intro f
  induction f with
  | zero =>
    intro reg ct items b out h
    cases items with
    | nil =>
      have : out = ([], reg) := by simpa [emitSequenceItems] using h.symm
      exact ⟨[], by simp, by simp, by simp [this, intercalateB]⟩
    | cons x rest => simp [emitSequenceItems] at h
  | succ f ih =>
    intro reg ct items b out h
    cases items with
    | nil =>
      have : out = ([], reg) := by simpa [emitSequenceItems] using h.symm
      exact ⟨[], by simp, by simp, by simp [this, intercalateB]⟩
    | cons v rest =>
      simp only [emitSequenceItems] at h
      split at h
      · exact ih _ _ _ _ _ h
      · split at h
        · exact Option.noConfusion h
        · split at h
          · exact Option.noConfusion h
          · cases h
            rename_i x vts vreg2 hveq xi ts2 reg3 hreq
            obtain ⟨chunks, hne, hsep, hts⟩ := ih _ _ _ _ _ hreq
            refine ⟨vts :: chunks, ?_, ?_, ?_⟩
            · intro c hc
              rcases List.mem_cons.mp hc with rfl | hc
              · exact emitValueOrContainer_ne_nil _ _ _ _ _ hveq
              · exact hne c hc
            · intro c hc t htc
              rcases List.mem_cons.mp hc with rfl | hc
              · rintro ⟨hk2, hp2⟩
                obtain ⟨w, hw1, hw2⟩ := (sepDepth_bundle f).1 _ _ _ _ hveq t htc hk2
                rw [hp2] at hw1
                cases hw1
                omega
              · exact hsep c hc t htc
            · have hts2 : ts2 = intercalateB (sepTok ct) true chunks := hts
              rw [intercalateB, ← hts2]
              simp [sepTok]

/-- The mapping emission loop produces exactly the surviving pairs'
emissions joined by ITEM_SEP tokens of the loop's container. -/
theorem mapItems_chunks : ∀ (f : Nat) (reg : List Customizer) (ct : Token)
    (pairs : List (Value × Value)) (b : Bool) (out : EmitOut),
    emitMappingItems f reg ct pairs b = some out →
    ∃ chunks : List (List Token),
      (∀ c ∈ chunks, c ≠ []) ∧
      (∀ c ∈ chunks, ∀ t ∈ c, ¬(t.kind = .ITEM_SEP ∧ t.parent = some ct)) ∧
      out.1 = intercalateB (sepTok ct) b chunks := by
  intro f
  induction f with
  | zero =>
    intro reg ct pairs b out h
    cases pairs with
    | nil =>
      have : out = ([], reg) := by simpa [emitMappingItems] using h.symm
      exact ⟨[], by simp, by simp, by simp [this, intercalateB]⟩
    | cons x rest => simp [emitMappingItems] at h
  | succ f ih =>
    intro reg ct pairs b out h
    cases pairs with
    | nil =>
      have : out = ([], reg) := by simpa [emitMappingItems] using h.symm
      exact ⟨[], by simp, by simp, by simp [this, intercalateB]⟩
    | cons kv rest =>
      simp only [emitMappingItems] at h
      split at h
      · exact ih _ _ _ _ _ h
      · split at h
        · exact Option.noConfusion h
        · split at h
          · exact Option.noConfusion h
          · cases h
            rename_i x pts reg2 warn hpair xi ts reg3 hreq
            obtain ⟨chunks, hne, hsep, hts⟩ := ih _ _ _ _ _ hreq
            refine ⟨pts :: chunks, ?_, ?_, ?_⟩
            · intro c hc
              rcases List.mem_cons.mp hc with rfl | hc
              · exact emitMappingPair_ne_nil _ _ _ _ _ _ hpair
              · exact hne c hc
            · intro c hc t htc
              rcases List.mem_cons.mp hc with rfl | hc
              · rintro ⟨hk2, hp2⟩
                obtain ⟨w, hw1, hw2⟩ := (sepDepth_bundle f).2.2.2.2 _ _ _ _ _ hpair t htc hk2
                rw [hp2] at hw1
                cases hw1
                omega
              · exact hsep c hc t htc
            · have hts2 : ts = intercalateB (sepTok ct) true chunks := hts
              rw [intercalateB, ← hts2]
              simp [sepTok]

/-- Claim C6: in the token stream a container's item loop emits, an
ITEM_SEP of that container appears only between two surviving
(non-suppressed) items: the emitted tokens are exactly the surviving
items' emissions (each non-empty and free of ITEM_SEP tokens of this
container) intercalated with single ITEM_SEP tokens — none before the
first surviving item, none after the last, exactly one between each
adjacent pair, however many items customizers suppress. -/
theorem item_separator_only_between_surviving_items (f : Nat) (reg : List Customizer)
    (ct : Token) (items : List Value) (pairs : List (Value × Value)) (out1 out2 : EmitOut)
    (h1 : emitSequenceItems f reg ct items false = some out1)
    (h2 : emitMappingItems f reg ct pairs false = some out2) :
    (∃ chunks : List (List Token), (∀ c ∈ chunks, c ≠ []) ∧
      (∀ c ∈ chunks, ∀ t ∈ c, ¬(t.kind = .ITEM_SEP ∧ t.parent = some ct)) ∧
      out1.1 = List.intercalate [sepTok ct] chunks) ∧
    (∃ chunks : List (List Token), (∀ c ∈ chunks, c ≠ []) ∧
      (∀ c ∈ chunks, ∀ t ∈ c, ¬(t.kind = .ITEM_SEP ∧ t.parent = some ct)) ∧
      out2.1 = List.intercalate [sepTok ct] chunks) := by
  constructor
  · obtain ⟨chunks, hne, hsep, hout⟩ := seqItems_chunks f reg ct items false out1 h1
    exact ⟨chunks, hne, hsep, by rw [hout, intercalateB_false_eq]⟩
  · obtain ⟨chunks, hne, hsep, hout⟩ := mapItems_chunks f reg ct pairs false out2 h2
    exact ⟨chunks, hne, hsep, by rw [hout, intercalateB_false_eq]⟩

/-- Witness for `item_separator_only_between_surviving_items`: a
two-element list and a one-pair mapping under the default pipeline. -/
theorem item_separator_only_between_surviving_items_witness :
    ∃ (out1 out2 : EmitOut),
      emitSequenceItems 10 pipelineRegistry0 (rootTok (.list [.int 1, .int 2]))
          [.int 1, .int 2] false = some out1 ∧
      emitMappingItems 10 pipelineRegistry0 (rootTok (.list [.int 1, .int 2]))
          [(.str "a", .int 1)] false = some out2 ∧
      (∃ chunks : List (List Token), (∀ c ∈ chunks, c ≠ []) ∧
        (∀ c ∈ chunks, ∀ t ∈ c,
          ¬(t.kind = .ITEM_SEP ∧ t.parent = some (rootTok (.list [.int 1, .int 2])))) ∧
        out1.1 = List.intercalate [sepTok (rootTok (.list [.int 1, .int 2]))] chunks) ∧
      (∃ chunks : List (List Token), (∀ c ∈ chunks, c ≠ []) ∧
        (∀ c ∈ chunks, ∀ t ∈ c,
          ¬(t.kind = .ITEM_SEP ∧ t.parent = some (rootTok (.list [.int 1, .int 2])))) ∧
        out2.1 = List.intercalate [sepTok (rootTok (.list [.int 1, .int 2]))] chunks) := by
  refine ⟨_, _, rfl, rfl, ?_, ?_⟩
  · exact (item_separator_only_between_surviving_items 10 pipelineRegistry0
      (rootTok (.list [.int 1, .int 2])) [.int 1, .int 2] [(.str "a", .int 1)] _ _
      rfl rfl).1
  · exact (item_separator_only_between_surviving_items 10 pipelineRegistry0
      (rootTok (.list [.int 1, .int 2])) [.int 1, .int 2] [(.str "a", .int 1)] _ _
      rfl rfl).2

/-- Clear the `suppress` flag of one customization (all other fields,
including the override value, delimiters and raw flags, are kept). -/
def stripC (c : XTokenCustomization) : XTokenCustomization :=
  { c with suppress := false }

/-- Clear every `suppress` flag reachable from a token (its own
customization and, recursively, its parents'). -/
def Token.stripSuppress : Token → Token
  | .mk k v b none c => .mk k v b none (c.map stripC)
  | .mk k v b (some p) c => .mk k v b (some p.stripSuppress) (c.map stripC)

theorem strip_kind (t : Token) : (Token.stripSuppress t).kind = t.kind := by
  cases t with
  | mk k v b p c => cases p <;> simp [Token.stripSuppress, Token.kind]

theorem strip_is_kvv (t : Token) : (Token.stripSuppress t).is_kvv = t.is_kvv := by
  cases t with
  | mk k v b p c => cases p <;> simp [Token.stripSuppress, Token.is_kvv]

theorem strip_value (t : Token) : (Token.stripSuppress t).value = t.value := by
  cases t with
  | mk k v b p c =>
    cases p <;> cases c <;>
      simp [Token.stripSuppress, Token.value, Token.customization, Token.value_,
        stripC, XTokenCustomization.override]

theorem strip_depth : ∀ t : Token, (Token.stripSuppress t).depth = t.depth
  | .mk k v b none c => by simp [Token.stripSuppress, Token.depth]
  | .mk k v b (some p) c => by
    have ih := strip_depth p
    simp [Token.stripSuppress, Token.depth, ih]

theorem strip_raw (t : Token) :
    ((Token.stripSuppress t).customization.map (·.raw_string)).getD false
      = (t.customization.map (·.raw_string)).getD false := by
  cases t with
  | mk k v b p c =>
    cases p <;> cases c <;> simp [Token.stripSuppress, Token.customization, stripC]

theorem strip_delims (ind : Option Int) (sep : Option (String × String)) :
    ∀ t : Token, Token.delims ind sep (Token.stripSuppress t) = Token.delims ind sep t
  | .mk k v b none c => by
    cases c with
    | none => cases k <;> simp [Token.stripSuppress, Token.delims]
    | some cz =>
      cases k <;>
        simp [Token.stripSuppress, Token.delims, stripC, Token.value,
          Token.customization, Token.value_, XTokenCustomization.override]
  | .mk k v b (some p) c => by
    have ih := strip_delims ind sep p
    cases c with
    | none =>
      cases k <;>
        simp [Token.stripSuppress, Token.delims, ih, Token.value,
          Token.customization, Token.value_]
    | some cz =>
      cases k <;>
        simp [Token.stripSuppress, Token.delims, stripC, Token.value,
          Token.customization, Token.value_, XTokenCustomization.override, ih]

theorem strip_parentTruthy (t : Token) :
    parentTruthy (Token.stripSuppress t) = parentTruthy t := by
  cases t with
  | mk k v b p c =>
    cases p with
    | none => simp [Token.stripSuppress, parentTruthy, Token.parent]
    | some pt =>
      simp [Token.stripSuppress, parentTruthy, Token.parent, strip_value pt]

theorem strip_getIndentation (cfg : TokenFormatter) (t : Token) :
    getIndentation cfg (Token.stripSuppress t) = getIndentation cfg t := by
  cases t with
  | mk k v b p c =>
    cases p with
    | none =>
      simp [Token.stripSuppress, getIndentation, Token.is_kvv, Token.kind,
        Token.depth, Token.parent]
    | some pt =>
      simp [Token.stripSuppress, getIndentation, Token.is_kvv, Token.kind,
        Token.depth, Token.parent, strip_depth pt]

theorem strip_is_container (t : Token) :
    (Token.stripSuppress t).is_container = t.is_container := by
  simp [Token.is_container, Token.is_mapping, Token.is_sequence, Token.is_set,
    strip_value t]

theorem strip_value_ (t : Token) : (Token.stripSuppress t).value_ = t.value_ := by
  cases t with
  | mk k v b p c => cases p <;> simp [Token.stripSuppress, Token.value_]

theorem strip_formatToken (cfg : TokenFormatter) (t : Token) :
    formatToken cfg (Token.stripSuppress t) = formatToken cfg t := by
  have hk := strip_kind t
  have hv := strip_value t
  have hvu := strip_value_ t
  have hd := strip_delims cfg.indent cfg.separators t
  have hp := strip_parentTruthy t
  have hi := strip_getIndentation cfg t
  have hr := strip_raw t
  have hc := strip_is_container t
  unfold formatToken
  rw [hk]
  cases t.kind <;> simp only [hd, hp, hi, hr, hc, hvu, hv]

theorem strip_renderTokens (cfg : TokenFormatter) :
    ∀ ts : List Token,
      renderTokens cfg (ts.map Token.stripSuppress) = renderTokens cfg ts
  | [] => rfl
  | t :: ts => by
    simp only [List.map_cons, renderTokens, strip_formatToken cfg t,
      strip_renderTokens cfg ts]

/-- The key-side suppression check of `emit_tokens_for_mapping_pair`
(`if key_customization and key_customization.suppress`). -/
def pairKeySuppressed (reg : List Customizer) (ct : Token) (k : Value) : Bool :=
  ((customize reg k (ct.depth + 1)).2.1.map (·.suppress)).getD false

/-- The value-side suppression check of `emit_tokens_for_mapping_pair`
(`if value_customization and value_customization.suppress`), evaluated —
as in the source — on the registry as it stands after the key half has
been emitted. -/
def pairValueSuppressed (fuel : Nat) (reg : List Customizer) (ct : Token)
    (k v : Value) : Bool :=
  let ks := customize reg k (ct.depth + 1)
  let keyToken : Token := .mk .VALUE (some k) false (some ct) ks.2.1
  match (if keyToken.is_container then
      wrapChildren keyToken false (emitContainerItems fuel ks.1 keyToken)
    else some ([keyToken], ks.1)) with
  | none => false
  | some kp => ((customize kp.2 v (ct.depth + 1)).2.1.map (·.suppress)).getD false

/-- Claim C7: when a customizer marks the key or the value of a mapping
pair as suppressed, `emit_tokens_for_mapping_pair` raises a warning (the
warn counter of the run is at least 1) but still emits the full pair —
non-empty key token(s), the KeySeparator, non-empty value token(s) — and
the rendering of the emitted tokens is exactly what it would be had no
suppression been requested (clearing every `suppress` flag in the stream
leaves the rendered text unchanged): rendering proceeds, it does not
fail. -/
theorem suppressed_mapping_half_warns_but_emits
    (f : Nat) (reg : List Customizer) (ct : Token) (k v : Value)
    (ts : List Token) (reg2 : List Customizer) (warn : Nat)
    (h : emitMappingPair (f + 1) reg ct k v = some (ts, reg2, warn))
    (hsup : pairKeySuppressed reg ct k = true ∨
      pairValueSuppressed f reg ct k v = true) :
    1 ≤ warn ∧
    (∃ kp vp : List Token, kp ≠ [] ∧ vp ≠ [] ∧
        ts = kp ++ Token.mk .KV_SEP none false (some ct) none :: vp) ∧
    (∀ cfg : TokenFormatter,
        renderTokens cfg (ts.map Token.stripSuppress) = renderTokens cfg ts) := by
  simp only [emitMappingPair] at h
  rw [Option.bind_eq_some] at h
  obtain ⟨kp, hkp, h⟩ := h
  rw [Option.bind_eq_some] at h
  obtain ⟨vp, hvp, h⟩ := h
  cases h
  refine ⟨?_, ⟨kp.1, vp.1, ?_, ?_, rfl⟩, fun cfg => strip_renderTokens cfg _⟩
  · rcases hsup with hks | hvs
    · rw [pairKeySuppressed] at hks
      simp only [hks, if_true]
      omega
    · have hvs2 : ((customize kp.2 v (ct.depth + 1)).2.1.map (·.suppress)).getD false
          = true := by
        rw [pairValueSuppressed, hkp] at hvs
        exact hvs
      simp only [hvs2, if_true]
      omega
  · revert hkp
    split
    · intro hkp
      obtain ⟨its, hinner, hshape⟩ := wrapChildren_some _ _ _ _ hkp
      simp [hshape]
    · intro hkp
      cases hkp
      simp
  · revert hvp
    split
    · intro hvp
      obtain ⟨its, hinner, hshape⟩ := wrapChildren_some _ _ _ _ hvp
      simp [hshape]
    · intro hvp
      cases hvp
      simp

/-- A customizer that suppresses the string key "k" (and nothing else). -/
def suppressKC : Customizer :=
  ⟨9, fun v _ => match v with
    | .str "k" => .retCust { suppress := true }
    | _ => .retNone⟩

/-- Witness for `suppressed_mapping_half_warns_but_emits`: the pair
`"k": 1` under a registry whose extra customizer suppresses the key. -/
theorem suppressed_mapping_half_warns_but_emits_witness :
    ∃ (ts : List Token) (reg2 : List Customizer) (warn : Nat),
      emitMappingPair 6 (suppressKC :: pipelineRegistry0)
          (rootTok (.dict [(.str "k", .int 1)])) (.str "k") (.int 1)
        = some (ts, reg2, warn) ∧
      pairKeySuppressed (suppressKC :: pipelineRegistry0)
          (rootTok (.dict [(.str "k", .int 1)])) (.str "k") = true ∧
      (1 ≤ warn ∧
       (∃ kp vp : List Token, kp ≠ [] ∧ vp ≠ [] ∧
          ts = kp ++ Token.mk .KV_SEP none false
              (some (rootTok (.dict [(.str "k", .int 1)]))) none :: vp) ∧
       (∀ cfg : TokenFormatter,
          renderTokens cfg (ts.map Token.stripSuppress) = renderTokens cfg ts)) := by
  refine ⟨_, _, _, rfl, rfl, ?_⟩
  exact suppressed_mapping_half_warns_but_emits 5 (suppressKC :: pipelineRegistry0)
    (rootTok (.dict [(.str "k", .int 1)])) (.str "k") (.int 1) _ _ _ rfl (Or.inl rfl)

mutual

/-- The amended-claim input class, modelled from the spec's words: values
built from JSON-plain scalars (`None`, `bool`, `int`, `str`), lists, and
string-keyed mappings — no tuples, sets, raw strings or custom types. -/
def plainJson : Value → Bool
  | .null => true
  | .bool _ => true
  | .int _ => true
  | .str _ => true
  | .list items => plainJsonList items
  | .dict ps => plainJsonPairs ps
  | _ => false

def plainJsonList : List Value → Bool
  | [] => true
  | v :: rest => plainJson v && plainJsonList rest

def plainJsonPairs : List (Value × Value) → Bool
  | [] => true
  | (k, x) :: rest =>
    (match k with | .str _ => true | _ => false) && plainJson x && plainJsonPairs rest

end

mutual

/-- Fuel needed by `emitContainerItems` on a token holding the value
(0 for non-containers, which never reach it). -/
def needX : Value → Nat
  | .list items => 1 + needL items
  | .dict ps => 1 + needP ps
  | _ => 0

/-- Fuel needed by `emitSequenceItems` on an item list. -/
def needL : List Value → Nat
  | [] => 0
  | v :: rest => 1 + max (1 + needX v) (needL rest)

/-- Fuel needed by `emitMappingItems` on a pair list. -/
def needP : List (Value × Value) → Nat
  | [] => 0
  | kv :: rest => 1 + max (1 + needX kv.2) (needP rest)

end

/-- Whether a value is an `XRawString` (the only shape any customizer of
the default pipeline reacts to). -/
def nonRaw : Value → Bool
  | .raw _ => false
  | _ => true

/-- On any non-`XRawString` value the default pipeline is a no-op: every
customizer returns `None`, so the registry is unchanged, no customization
is produced, and all six stages are invoked in order. -/
theorem customize_reg0_noop (v : Value) (hv : nonRaw v = true) (d : Nat) :
    customize pipelineRegistry0 v d = (pipelineRegistry0, none, [7, 4, 3, 2, 1, 0]) := by
  cases v <;> first | rfl | simp [nonRaw] at hv

theorem plain_nonRaw (v : Value) (hv : plainJson v = true) : nonRaw v = true := by
  cases v <;> first | rfl | simp [plainJson] at hv

theorem renderTokens_cons (cfg : TokenFormatter) (t : Token) (ts : List Token) :
    renderTokens cfg (t :: ts)
      = (formatToken cfg t).bind fun c => (renderTokens cfg ts).map fun r => c ++ r := by
  cases h1 : formatToken cfg t <;> cases h2 : renderTokens cfg ts <;>
    simp [renderTokens, h1, h2]

theorem renderTokens_append (cfg : TokenFormatter) :
    ∀ a b : List Token, renderTokens cfg (a ++ b)
      = (renderTokens cfg a).bind fun x => (renderTokens cfg b).map fun y => x ++ y
  | [], b => by
    cases h : renderTokens cfg b <;> simp [renderTokens, h, String.empty_append]
  | t :: a, b => by
    rw [List.cons_append, renderTokens_cons, renderTokens_cons,
      renderTokens_append cfg a b]
    cases formatToken cfg t <;> cases renderTokens cfg a <;> cases renderTokens cfg b <;>
      simp [String.append_assoc]

/-- A token with no customization is container-shaped exactly when its
stored value is. -/
theorem is_container_nocust (k : Kind) (v : Value) (b : Bool) (p : Option Token) :
    Token.is_container (.mk k (some v) b p none) = isWidthContainer v := by
  cases v <;> rfl

theorem delims_value_token (cv : Value) (b : Bool) (p : Option Token) (dl : Delimiters)
    (h : delimitersForValue cv none none = some dl) :
    Token.delims none none (.mk .VALUE (some cv) b p none) = some dl := by
  cases cv with
  | null => exact Option.noConfusion h
  | bool x => exact Option.noConfusion h
  | int x => exact Option.noConfusion h
  | str x => exact Option.noConfusion h
  | raw x =>
    have h2 : (some (⟨"[", "]", ", ", ": "⟩ : Delimiters) : Option Delimiters) = some dl := h
    cases h2
    rfl
  | list x =>
    have h2 : (some (⟨"[", "]", ", ", ": "⟩ : Delimiters) : Option Delimiters) = some dl := h
    cases h2
    rfl
  | tuple x =>
    have h2 : (some (⟨"(", ")", ", ", ": "⟩ : Delimiters) : Option Delimiters) = some dl := h
    cases h2
    rfl
  | set x =>
    have h2 : (some (⟨"\x7b", "\x7d", ", ", ": "⟩ : Delimiters) : Option Delimiters) = some dl := h
    cases h2
    rfl
  | dict x =>
    have h2 : (some (⟨"\x7b", "\x7d", ", ", ": "⟩ : Delimiters) : Option Delimiters) = some dl := h
    cases h2
    rfl

theorem formatToken_compact_atom (v : Value) (b : Bool) (p : Option Token)
    (hv : isWidthContainer v = false) :
    formatToken compactCfg (.mk .VALUE (some v) b p none)
      = some (stringifyAtom compactCfg (some v)) := by
  have hc := is_container_nocust .VALUE v b p
  simp [formatToken, Token.kind, hc, hv, getIndentation, compactCfg,
    Token.customization, Token.value, Token.value_, String.empty_append]

theorem formatToken_compact_open (b : Bool) (ct : Token) :
    formatToken compactCfg (.mk .OPEN none b (some ct) none)
      = (Token.delims none none ct).map (·.open_) := by
  cases h : Token.delims none none ct <;>
    simp [formatToken, Token.kind, Token.delims, compactCfg, getIndentation, h,
      String.empty_append, String.append_empty]

theorem formatToken_compact_close (ct : Token) :
    formatToken compactCfg (.mk .CLOSE none false (some ct) none)
      = (Token.delims none none ct).map (·.close_) := by
  cases h : Token.delims none none ct <;>
    simp [formatToken, Token.kind, Token.delims, compactCfg, getIndentation, h,
      String.empty_append, String.append_empty]

theorem formatToken_compact_itemsep (ct : Token) :
    formatToken compactCfg (.mk .ITEM_SEP none false (some ct) none)
      = (Token.delims none none ct).map (·.itemsep) := by
  cases h : Token.delims none none ct <;>
    simp [formatToken, Token.kind, Token.delims, compactCfg, h]

theorem formatToken_compact_kvsep (ct : Token) :
    formatToken compactCfg (.mk .KV_SEP none false (some ct) none)
      = (Token.delims none none ct).map (·.kvsep) := by
  cases h : Token.delims none none ct <;>
    simp [formatToken, Token.kind, Token.delims, compactCfg, h]

theorem but_stringify_scalar (v : Value) (hv : plainJson v = true)
    (hc : isWidthContainer v = false) :
    jsonDumps v = some (stringifyAtom compactCfg (some v)) := by
  cases v with
  | null => rfl
  | bool b => cases b <;> rfl
  | int i => rfl
  | str s => rfl
  | raw s => simp [plainJson] at hv
  | list l => simp [isWidthContainer] at hc
  | dict l => simp [isWidthContainer] at hc
  | tuple l => simp [plainJson] at hv
  | set l => simp [plainJson] at hv

theorem renderTokens_atom (v : Value) (b : Bool) (p : Option Token)
    (hv : isWidthContainer v = false) :
    renderTokens compactCfg [Token.mk .VALUE (some v) b p none]
      = some (stringifyAtom compactCfg (some v)) := by
  simp [renderTokens, formatToken_compact_atom v b p hv, String.append_empty]

theorem renderTokens_wrap (cv : Value) (b2 kvv : Bool) (pp : Option Token)
    (ts : List Token) (dl : Delimiters)
    (hdl : delimitersForValue cv none none = some dl) :
    renderTokens compactCfg
        (Token.mk .OPEN none kvv (some (.mk .VALUE (some cv) b2 pp none)) none
          :: ts ++ [Token.mk .CLOSE none false (some (.mk .VALUE (some cv) b2 pp none)) none])
      = (renderTokens compactCfg ts).map (fun body => dl.open_ ++ body ++ dl.close_) := by
  rw [renderTokens_append, renderTokens_cons, formatToken_compact_open,
    delims_value_token _ _ _ _ hdl]
  have hcl : renderTokens compactCfg
      [Token.mk .CLOSE none false (some (.mk .VALUE (some cv) b2 pp none)) none]
      = some dl.close_ := by
    simp [renderTokens, formatToken_compact_close, delims_value_token _ _ _ _ hdl,
      String.append_empty]
  rw [hcl]
  cases renderTokens compactCfg ts <;> simp [String.append_assoc]

theorem renderTokens_sep_pre (b : Bool) (cv : Value) (b2 : Bool) (pp : Option Token)
    (dl : Delimiters) (hdl : delimitersForValue cv none none = some dl) :
    renderTokens compactCfg
        (if b then
          [Token.mk .ITEM_SEP none false (some (.mk .VALUE (some cv) b2 pp none)) none]
        else [])
      = some (if b then dl.itemsep else "") := by
  cases b <;>
    simp [renderTokens, formatToken_compact_itemsep, delims_value_token _ _ _ _ hdl,
      String.append_empty]

theorem jsonDumpsList_cons (v : Value) (rest : List Value) :
    jsonDumpsList (v :: rest)
      = (jsonDumps v).bind fun a => (jsonDumpsList rest).map
          fun r => a ++ (if rest.isEmpty then "" else ", ") ++ r := by
  cases h1 : jsonDumps v <;> cases h2 : jsonDumpsList rest <;>
    simp [jsonDumpsList, h1, h2]

theorem jsonDumpsPairs_cons (k x : Value) (rest : List (Value × Value)) :
    jsonDumpsPairs ((k, x) :: rest)
      = (jsonKeyString k).bind fun ks => (jsonDumps x).bind fun vs =>
          (jsonDumpsPairs rest).map fun r =>
            jsonEscape ks ++ ": " ++ vs ++ (if rest.isEmpty then "" else ", ") ++ r := by
  cases h1 : jsonKeyString k <;> cases h2 : jsonDumps x <;>
    cases h3 : jsonDumpsPairs rest <;> simp [jsonDumpsPairs, h1, h2, h3]

/-- The compact-mode correspondence bundle: with the default pipeline and
enough fuel, each traversal emitter succeeds on plain-JSON input, leaves
the registry untouched, and its emitted tokens render (under the compact
configuration) to exactly the corresponding fragment of the standard
JSON encoder's compact output. -/
theorem plainBundle : ∀ fuel : Nat,
    (∀ v p, plainJson v = true → needX v + 1 ≤ fuel →
      ∃ ts, emitValueOrContainer fuel pipelineRegistry0 v p = some (ts, pipelineRegistry0) ∧
        renderTokens compactCfg ts = jsonDumps v) ∧
    (∀ items b2 pp, plainJsonList items = true → needL items + 1 ≤ fuel →
      ∃ ts, emitContainerItems fuel pipelineRegistry0
          (Token.mk .VALUE (some (.list items)) b2 pp none) = some (ts, pipelineRegistry0) ∧
        renderTokens compactCfg ts = jsonDumpsList items) ∧
    (∀ ps b2 pp, plainJsonPairs ps = true → needP ps + 1 ≤ fuel →
      ∃ ts, emitContainerItems fuel pipelineRegistry0
          (Token.mk .VALUE (some (.dict ps)) b2 pp none) = some (ts, pipelineRegistry0) ∧
        renderTokens compactCfg ts = jsonDumpsPairs ps) ∧
    (∀ items b cv b2 pp dl, plainJsonList items = true → needL items ≤ fuel →
      delimitersForValue cv none none = some dl → dl.itemsep = ", " →
      ∃ ts, emitSequenceItems fuel pipelineRegistry0
          (Token.mk .VALUE (some cv) b2 pp none) items b = some (ts, pipelineRegistry0) ∧
        renderTokens compactCfg ts = (jsonDumpsList items).map
          (fun s => if b && !items.isEmpty then ", " ++ s else s)) ∧
    (∀ ps b cv b2 pp dl, plainJsonPairs ps = true → needP ps ≤ fuel →
      delimitersForValue cv none none = some dl → dl.itemsep = ", " → dl.kvsep = ": " →
      ∃ ts, emitMappingItems fuel pipelineRegistry0
          (Token.mk .VALUE (some cv) b2 pp none) ps b = some (ts, pipelineRegistry0) ∧
        renderTokens compactCfg ts = (jsonDumpsPairs ps).map
          (fun s => if b && !ps.isEmpty then ", " ++ s else s)) ∧
    (∀ s x cv b2 pp dl, plainJson x = true → needX x + 1 ≤ fuel →
      delimitersForValue cv none none = some dl → dl.kvsep = ": " →
      ∃ ts warn, emitMappingPair fuel pipelineRegistry0
          (Token.mk .VALUE (some cv) b2 pp none) (.str s) x
            = some (ts, pipelineRegistry0, warn) ∧
        renderTokens compactCfg ts = (jsonDumps x).map
          (fun xs => jsonEscape s ++ ": " ++ xs)) := by
  intro fuel
  induction fuel with
  | zero =>
    refine ⟨?_, ?_, ?_, ?_, ?_, ?_⟩
    · intro v p hv hf
      exact absurd hf (by omega)
    · intro items b2 pp hp hf
      exact absurd hf (by omega)
    · intro ps b2 pp hp hf
      exact absurd hf (by omega)
    · intro items b cv b2 pp dl hp hf hdl hit
      cases items with
      | nil => exact ⟨[], rfl, by simp [renderTokens, jsonDumpsList]⟩
      | cons v rest =>
        rw [needL] at hf
        exact absurd hf (by omega)
    · intro ps b cv b2 pp dl hp hf hdl hit hkv
      cases ps with
      | nil => exact ⟨[], rfl, by simp [renderTokens, jsonDumpsPairs]⟩
      | cons kv rest =>
        rw [needP] at hf
        exact absurd hf (by omega)
    · intro s x cv b2 pp dl hx hf hdl hkv
      exact absurd hf (by omega)
  | succ fuel ih =>
    obtain ⟨ih1, ih2a, ih2b, ih3, ih4, ih5⟩ := ih
    refine ⟨?_, ?_, ?_, ?_, ?_, ?_⟩
    · -- emitValueOrContainer
      intro v p hv hf
      have hnr := plain_nonRaw v hv
      cases hcx : isWidthContainer v with
      | false =>
        refine ⟨[Token.mk .VALUE (some v) false (some p) none], ?_, ?_⟩
        · simp [emitValueOrContainer, customize_reg0_noop _ hnr, is_container_nocust, hcx]
        · rw [renderTokens_atom _ _ _ hcx]
          exact (but_stringify_scalar v hv hcx).symm
      | true =>
        cases v with
        | null => simp [isWidthContainer] at hcx
        | bool x => simp [isWidthContainer] at hcx
        | int x => simp [isWidthContainer] at hcx
        | str x => simp [isWidthContainer] at hcx
        | raw x => simp [plainJson] at hv
        | tuple x => simp [plainJson] at hv
        | set x => simp [plainJson] at hv
        | list items =>
          have hb : plainJsonList items = true := hv
          rw [needX] at hf
          obtain ⟨ts, hE, hr⟩ := ih2a items false (some p) hb (by omega)
          refine ⟨Token.mk .OPEN none false
              (some (Token.mk .VALUE (some (.list items)) false (some p) none)) none
              :: ts ++ [Token.mk .CLOSE none false
                (some (Token.mk .VALUE (some (.list items)) false (some p) none)) none],
            ?_, ?_⟩
          · simp [emitValueOrContainer, customize_reg0_noop _ hnr, is_container_nocust,
              isWidthContainer, hE, wrapChildren]
          · rw [renderTokens_wrap (.list items) false false (some p) ts
              ⟨"[", "]", ", ", ": "⟩ rfl, hr]
            rfl
        | dict ps =>
          have hb : plainJsonPairs ps = true := hv
          rw [needX] at hf
          obtain ⟨ts, hE, hr⟩ := ih2b ps false (some p) hb (by omega)
          refine ⟨Token.mk .OPEN none false
              (some (Token.mk .VALUE (some (.dict ps)) false (some p) none)) none
              :: ts ++ [Token.mk .CLOSE none false
                (some (Token.mk .VALUE (some (.dict ps)) false (some p) none)) none],
            ?_, ?_⟩
          · simp [emitValueOrContainer, customize_reg0_noop _ hnr, is_container_nocust,
              isWidthContainer, hE, wrapChildren]
          · rw [renderTokens_wrap (.dict ps) false false (some p) ts
              ⟨"\x7b", "\x7d", ", ", ": "⟩ rfl, hr]
            rfl
    · -- emitContainerItems on a list
      intro items b2 pp hp hf
      obtain ⟨ts, hE, hr⟩ := ih3 items false (.list items) b2 pp ⟨"[", "]", ", ", ": "⟩
        hp (by omega) rfl rfl
      refine ⟨ts, ?_, ?_⟩
      · simp [emitContainerItems, Token.is_mapping, Token.is_sequence, Token.is_set,
          Token.value, Token.customization, Token.value_, hE]
      · rw [hr]
        cases jsonDumpsList items <;> simp
    · -- emitContainerItems on a dict
      intro ps b2 pp hp hf
      obtain ⟨ts, hE, hr⟩ := ih4 ps false (.dict ps) b2 pp ⟨"\x7b", "\x7d", ", ", ": "⟩
        hp (by omega) rfl rfl rfl
      refine ⟨ts, ?_, ?_⟩
      · simp [emitContainerItems, Token.is_mapping, Token.is_sequence, Token.is_set,
          Token.value, Token.customization, Token.value_, hE]
      · rw [hr]
        cases jsonDumpsPairs ps <;> simp
    · -- emitSequenceItems
      intro items b cv b2 pp dl hp hf hdl hit
      cases items with
      | nil => exact ⟨[], rfl, by simp [renderTokens, jsonDumpsList]⟩
      | cons v rest =>
        simp only [plainJsonList, Bool.and_eq_true] at hp
        obtain ⟨hpv, hpr⟩ := hp
        rw [needL] at hf
        have hnr := plain_nonRaw v hpv
        obtain ⟨vts, hV, hrV⟩ := ih1 v (Token.mk .VALUE (some cv) b2 pp none) hpv (by omega)
        obtain ⟨ts2, hR, hrR⟩ := ih3 rest true cv b2 pp dl hpr (by omega) hdl hit
        refine ⟨(if b then
            [Token.mk .ITEM_SEP none false (some (Token.mk .VALUE (some cv) b2 pp none)) none]
          else []) ++ vts ++ ts2, ?_, ?_⟩
        · simp [emitSequenceItems, customize_reg0_noop _ hnr, hV, hR]
        · rw [renderTokens_append, renderTokens_append,
            renderTokens_sep_pre b cv b2 pp dl hdl, hrV, hrR, hit, jsonDumpsList_cons]
          cases hjv : jsonDumps v with
          | none => simp
          | some a =>
            cases hjr : jsonDumpsList rest with
            | none => simp
            | some r =>
              cases b <;> cases hre : rest.isEmpty <;>
                simp [String.append_assoc, String.append_empty, String.empty_append]
    · -- emitMappingItems
      intro ps b cv b2 pp dl hp hf hdl hit hkv
      cases ps with
      | nil => exact ⟨[], rfl, by simp [renderTokens, jsonDumpsPairs]⟩
      | cons kv rest =>
        obtain ⟨k, x⟩ := kv
        simp only [plainJsonPairs, Bool.and_eq_true] at hp
        obtain ⟨⟨hk, hpx⟩, hpr⟩ := hp
        obtain ⟨s, rfl⟩ : ∃ s, k = Value.str s := by
          cases k <;> first | exact ⟨_, rfl⟩ | simp at hk
        simp only [needP] at hf
        obtain ⟨pts, warn, hPair, hrP⟩ := ih5 s x cv b2 pp dl hpx (by omega) hdl hkv
        obtain ⟨ts2, hR, hrR⟩ := ih4 rest true cv b2 pp dl hpr (by omega) hdl hit hkv
        refine ⟨(if b then
            [Token.mk .ITEM_SEP none false (some (Token.mk .VALUE (some cv) b2 pp none)) none]
          else []) ++ pts ++ ts2, ?_, ?_⟩
        · simp [emitMappingItems, customize_reg0_noop (Value.tuple [Value.str s, x]) rfl,
            hPair, hR]
        · rw [renderTokens_append, renderTokens_append,
            renderTokens_sep_pre b cv b2 pp dl hdl, hrP, hrR, hit, jsonDumpsPairs_cons]
          cases hjx : jsonDumps x with
          | none => simp
          | some a =>
            cases hjr : jsonDumpsPairs rest with
            | none => simp [jsonKeyString]
            | some r =>
              cases b <;> cases hre : rest.isEmpty <;>
                simp [jsonKeyString, String.append_assoc, String.append_empty,
                  String.empty_append]
    · -- emitMappingPair
      intro s x cv b2 pp dl hx hf hdl hkv
      have hnrx := plain_nonRaw x hx
      cases hcx : isWidthContainer x with
      | false =>
        refine ⟨[Token.mk .VALUE (some (.str s)) false
              (some (Token.mk .VALUE (some cv) b2 pp none)) none,
            Token.mk .KV_SEP none false (some (Token.mk .VALUE (some cv) b2 pp none)) none,
            Token.mk .VALUE (some x) true (some (Token.mk .VALUE (some cv) b2 pp none)) none],
          0, ?_, ?_⟩
        · have hkc : Token.is_container (Token.mk .VALUE (some (.str s)) false
              (some (Token.mk .VALUE (some cv) b2 pp none)) none) = false := by
            rw [is_container_nocust]; rfl
          have hvc : Token.is_container (Token.mk .VALUE (some x) true
              (some (Token.mk .VALUE (some cv) b2 pp none)) none) = false := by
            rw [is_container_nocust]; exact hcx
          simp [emitMappingPair, customize_reg0_noop (Value.str s) rfl,
            customize_reg0_noop x hnrx, hkc, hvc]
        · rw [renderTokens_cons, formatToken_compact_atom (.str s) false _ rfl,
            renderTokens_cons, formatToken_compact_kvsep,
            delims_value_token _ _ _ _ hdl, renderTokens_atom _ _ _ hcx,
            but_stringify_scalar x hx hcx]
          simp [hkv, stringifyAtom, String.append_assoc, String.append_empty]
      | true =>
        cases x with
        | null => simp [isWidthContainer] at hcx
        | bool y => simp [isWidthContainer] at hcx
        | int y => simp [isWidthContainer] at hcx
        | str y => simp [isWidthContainer] at hcx
        | raw y => simp [plainJson] at hx
        | tuple y => simp [plainJson] at hx
        | set y => simp [plainJson] at hx
        | list items =>
          have hb : plainJsonList items = true := hx
          rw [needX] at hf
          obtain ⟨its, hE, hr⟩ := ih2a items true
            (some (Token.mk .VALUE (some cv) b2 pp none)) hb (by omega)
          refine ⟨Token.mk .VALUE (some (.str s)) false
                (some (Token.mk .VALUE (some cv) b2 pp none)) none
              :: Token.mk .KV_SEP none false
                (some (Token.mk .VALUE (some cv) b2 pp none)) none
              :: (Token.mk .OPEN none true
                  (some (Token.mk .VALUE (some (.list items)) true
                    (some (Token.mk .VALUE (some cv) b2 pp none)) none)) none
                :: its ++ [Token.mk .CLOSE none false
                  (some (Token.mk .VALUE (some (.list items)) true
                    (some (Token.mk .VALUE (some cv) b2 pp none)) none)) none]),
            0, ?_, ?_⟩
          · simp [emitMappingPair, customize_reg0_noop (Value.str s) rfl,
              customize_reg0_noop _ hnrx, is_container_nocust, isWidthContainer,
              hE, wrapChildren]
          · rw [renderTokens_cons, formatToken_compact_atom (.str s) false _ rfl,
              renderTokens_cons, formatToken_compact_kvsep,
              delims_value_token _ _ _ _ hdl,
              renderTokens_wrap (.list items) true true
                (some (Token.mk .VALUE (some cv) b2 pp none)) its
                ⟨"[", "]", ", ", ": "⟩ rfl, hr]
            cases hjl : jsonDumpsList items <;>
              simp [jsonDumps, hjl, hkv, stringifyAtom, String.append_assoc,
                String.append_empty]
        | dict qs =>
          have hb : plainJsonPairs qs = true := hx
          rw [needX] at hf
          obtain ⟨its, hE, hr⟩ := ih2b qs true
            (some (Token.mk .VALUE (some cv) b2 pp none)) hb (by omega)
          refine ⟨Token.mk .VALUE (some (.str s)) false
                (some (Token.mk .VALUE (some cv) b2 pp none)) none
              :: Token.mk .KV_SEP none false
                (some (Token.mk .VALUE (some cv) b2 pp none)) none
              :: (Token.mk .OPEN none true
                  (some (Token.mk .VALUE (some (.dict qs)) true
                    (some (Token.mk .VALUE (some cv) b2 pp none)) none)) none
                :: its ++ [Token.mk .CLOSE none false
                  (some (Token.mk .VALUE (some (.dict qs)) true
                    (some (Token.mk .VALUE (some cv) b2 pp none)) none)) none]),
            0, ?_, ?_⟩
          · simp [emitMappingPair, customize_reg0_noop (Value.str s) rfl,
              customize_reg0_noop _ hnrx, is_container_nocust, isWidthContainer,
              hE, wrapChildren]
          · rw [renderTokens_cons, formatToken_compact_atom (.str s) false _ rfl,
              renderTokens_cons, formatToken_compact_kvsep,
              delims_value_token _ _ _ _ hdl,
              renderTokens_wrap (.dict qs) true true
                (some (Token.mk .VALUE (some cv) b2 pp none)) its
                ⟨"\x7b", "\x7d", ", ", ": "⟩ rfl, hr]
            cases hjq : jsonDumpsPairs qs <;>
              simp [jsonDumps, hjq, hkv, stringifyAtom, String.append_assoc,
                String.append_empty]

/-- Claim C1 (amended): for every composition of JSON-plain scalars
(`None`, `bool`, `int`, `str`), lists, and string-keyed mappings — with a
non-string root — rendering through the full pipeline in compact mode
(`indent=None`, default separators, the JSON literal spellings, no user
customizers, both limiters disabled, no string bypass) produces a string
character-identical to the standard library JSON encoder's compact output
for the same input. -/
theorem compact_plain_json_matches_json_dumps (f : Nat) (v : Value)
    (hv : plainJson v = true) (hroot : ∀ s, v ≠ Value.str s)
    (hf : needX v + 1 ≤ f) :
    xdumpsModel f compactCfg [] (-1) (-1) false v = jsonDumps v := by
  have hnr := plain_nonRaw v hv
  cases v with
  | str s => exact absurd rfl (hroot s)
  | raw s => simp [plainJson] at hv
  | tuple xs => simp [plainJson] at hv
  | set xs => simp [plainJson] at hv
  | null =>
    show (streamTokens f (xdumpsRegistry [] (-1) (-1)) Value.null).bind
        (fun out => renderTokens compactCfg out.1) = jsonDumps Value.null
    rw [xdumpsRegistry_default]
    have h1 : streamTokens f pipelineRegistry0 Value.null
        = some ([Token.mk .VALUE (some Value.null) false none none], pipelineRegistry0) := by
      simp [streamTokens, customize_reg0_noop Value.null rfl, Token.value,
        Token.customization, Token.value_]
    rw [h1, Option.some_bind, renderTokens_atom Value.null false none rfl]
    exact (but_stringify_scalar Value.null hv rfl).symm
  | bool x =>
    show (streamTokens f (xdumpsRegistry [] (-1) (-1)) (Value.bool x)).bind
        (fun out => renderTokens compactCfg out.1) = jsonDumps (Value.bool x)
    rw [xdumpsRegistry_default]
    have h1 : streamTokens f pipelineRegistry0 (Value.bool x)
        = some ([Token.mk .VALUE (some (Value.bool x)) false none none],
            pipelineRegistry0) := by
      simp [streamTokens, customize_reg0_noop (Value.bool x) rfl, Token.value,
        Token.customization, Token.value_]
    rw [h1, Option.some_bind, renderTokens_atom (Value.bool x) false none rfl]
    exact (but_stringify_scalar (Value.bool x) hv rfl).symm
  | int i =>
    show (streamTokens f (xdumpsRegistry [] (-1) (-1)) (Value.int i)).bind
        (fun out => renderTokens compactCfg out.1) = jsonDumps (Value.int i)
    rw [xdumpsRegistry_default]
    have h1 : streamTokens f pipelineRegistry0 (Value.int i)
        = some ([Token.mk .VALUE (some (Value.int i)) false none none],
            pipelineRegistry0) := by
      simp [streamTokens, customize_reg0_noop (Value.int i) rfl, Token.value,
        Token.customization, Token.value_]
    rw [h1, Option.some_bind, renderTokens_atom (Value.int i) false none rfl]
    exact (but_stringify_scalar (Value.int i) hv rfl).symm
  | list items =>
    show (streamTokens f (xdumpsRegistry [] (-1) (-1)) (Value.list items)).bind
        (fun out => renderTokens compactCfg out.1) = jsonDumps (Value.list items)
    rw [xdumpsRegistry_default]
    rw [needX] at hf
    obtain ⟨ts, hE, hr⟩ := (plainBundle f).2.1 items false none hv (by omega)
    have h1 : streamTokens f pipelineRegistry0 (Value.list items)
        = some (Token.mk .OPEN none false
            (some (Token.mk .VALUE (some (.list items)) false none none)) none
            :: ts ++ [Token.mk .CLOSE none false
              (some (Token.mk .VALUE (some (.list items)) false none none)) none],
          pipelineRegistry0) := by
      simp [streamTokens, customize_reg0_noop _ hnr, Token.value, Token.customization,
        Token.value_, hE, wrapChildren]
    rw [h1, Option.some_bind,
      renderTokens_wrap (.list items) false false none ts ⟨"[", "]", ", ", ": "⟩ rfl, hr]
    rfl
  | dict ps =>
    show (streamTokens f (xdumpsRegistry [] (-1) (-1)) (Value.dict ps)).bind
        (fun out => renderTokens compactCfg out.1) = jsonDumps (Value.dict ps)
    rw [xdumpsRegistry_default]
    rw [needX] at hf
    obtain ⟨ts, hE, hr⟩ := (plainBundle f).2.2.1 ps false none hv (by omega)
    have h1 : streamTokens f pipelineRegistry0 (Value.dict ps)
        = some (Token.mk .OPEN none false
            (some (Token.mk .VALUE (some (.dict ps)) false none none)) none
            :: ts ++ [Token.mk .CLOSE none false
              (some (Token.mk .VALUE (some (.dict ps)) false none none)) none],
          pipelineRegistry0) := by
      simp [streamTokens, customize_reg0_noop _ hnr, Token.value, Token.customization,
        Token.value_, hE, wrapChildren]
    rw [h1, Option.some_bind,
      renderTokens_wrap (.dict ps) false false none ts ⟨"\x7b", "\x7d", ", ", ": "⟩ rfl, hr]
    rfl

/-- Witness for `compact_plain_json_matches_json_dumps`: the spec's own
example `render({"x": [1, 2]}, compact)`, whose compact rendering and
JSON encoding are both exactly the string `{"x": [1, 2]}`. -/
theorem compact_plain_json_matches_json_dumps_witness :
    plainJson (Value.dict [(.str "x", .list [.int 1, .int 2])]) = true ∧
    xdumpsModel 12 compactCfg [] (-1) (-1) false
        (Value.dict [(.str "x", .list [.int 1, .int 2])])
      = jsonDumps (Value.dict [(.str "x", .list [.int 1, .int 2])]) ∧
    jsonDumps (Value.dict [(.str "x", .list [.int 1, .int 2])])
      = some "\x7b\"x\": [1, 2]\x7d" := by
  refine ⟨rfl, ?_, rfl⟩
  exact compact_plain_json_matches_json_dumps 12 _ rfl
    (fun s h => Value.noConfusion h) (by decide)

end XD
